import Mathlib

/-!
Verification of the AquaSeal watermarking engine specification against its
backend source (src/backend/app).  The Python source is shallowly embedded:
machine integers are Nat/Int with explicit reductions, byte strings are lists
of Nat (each < 256 by construction), Python text strings are lists of Unicode
code points, and fallible code returns Except/Option.  Hash primitives
(SHA-256, MD5, CRC-32) are implemented in full so that every claim can be
evaluated on concrete inputs.
-/

namespace AquaSeal

/-- A byte, kept as Nat (always < 256 by construction of the producing ops). -/
abbrev Byte := Nat

/-- A byte string. -/
abbrev Bytes := List Nat

/-- A Python text string, as its list of Unicode code points. -/
abbrev PyStr := List Nat

/-- Code points of a Lean string literal, used to write PyStr constants. -/
def pstr (s : String) : PyStr :=
  s.data.map Char.toNat

/-- Strict lexicographic order on code-point lists (Python str <). -/
def lexLt : PyStr → PyStr → Bool
  | [], [] => false
  | [], _ :: _ => true
  | _ :: _, [] => false
  | a :: as, b :: bs => if a < b then true else if b < a then false else lexLt as bs

/-- Non-strict lexicographic order on code-point lists (Python str <=). -/
def lexLe (a b : PyStr) : Bool :=
  !(lexLt b a)

/-- Python int.to_bytes(n, 'big') for x < 256^n. -/
def toBytesBE (n : Nat) (x : Nat) : Bytes :=
  (List.range n).map fun i => x / 256 ^ (n - 1 - i) % 256

/-- Python int.to_bytes(n, 'little'). -/
def toBytesLE (n : Nat) (x : Nat) : Bytes :=
  (List.range n).map fun i => x / 256 ^ i % 256

/-- Python int.from_bytes(bs, 'big'). -/
def fromBytesBE (bs : Bytes) : Nat :=
  bs.foldl (fun acc b => acc * 256 + b) 0

/-- Python int.from_bytes(bs, 'little'). -/
def fromBytesLE (bs : Bytes) : Nat :=
  fromBytesBE bs.reverse

def chunksOfAux (n : Nat) : Nat → List α → List (List α)
  | 0, _ => []
  | _, [] => []
  | fuel + 1, a :: t => (a :: t).take n :: chunksOfAux n fuel ((a :: t).drop n)

/-- Split a list into consecutive chunks of size n (n > 0); the last chunk may
be short.  Mirrors the slicing loops of the source.  Structural recursion on a
fuel bound so the kernel can evaluate it. -/
def chunksOf (n : Nat) (l : List α) : List (List α) :=
  if n = 0 then [] else chunksOfAux n l.length l

/-- Decimal digits of a Nat as code points (Python str(n) for n >= 0). -/
def natDecimal (n : Nat) : PyStr :=
  (Nat.toDigits 10 n).map Char.toNat

/-- Python str(i) for an int. -/
def intDecimal : Int → PyStr
  | Int.ofNat n => natDecimal n
  | Int.negSucc n => 45 :: natDecimal (n + 1)

/-! ### 32-bit word helpers -/

/-- 2^32. -/
def M32 : Nat := 4294967296

/-- Truncate to 32 bits. -/
def t32 (x : Nat) : Nat := x % M32

/-- 32-bit right rotation. -/
def rotr32 (n x : Nat) : Nat :=
  t32 ((x >>> n) ||| (x <<< (32 - n)))

/-- 32-bit left rotation. -/
def rotl32 (n x : Nat) : Nat :=
  t32 ((x <<< n) ||| (x >>> (32 - n)))

/-- 32-bit complement. -/
def not32 (x : Nat) : Nat := 4294967295 - x

/-! ### SHA-256 (hashlib.sha256) -/

/-- SHA-256 round constants. -/
def sha256K : List Nat :=
  [1116352408, 1899447441, 3049323471, 3921009573, 961987163, 1508970993,
   2453635748, 2870763221, 3624381080, 310598401, 607225278, 1426881987,
   1925078388, 2162078206, 2614888103, 3248222580, 3835390401, 4022224774,
   264347078, 604807628, 770255983, 1249150122, 1555081692, 1996064986,
   2554220882, 2821834349, 2952996808, 3210313671, 3336571891, 3584528711,
   113926993, 338241895, 666307205, 773529912, 1294757372, 1396182291,
   1695183700, 1986661051, 2177026350, 2456956037, 2730485921, 2820302411,
   3259730800, 3345764771, 3516065817, 3600352804, 4094571909, 275423344,
   430227734, 506948616, 659060556, 883997877, 958139571, 1322822218,
   1537002063, 1747873779, 1955562222, 2024104815, 2227730452, 2361852424,
   2428436474, 2756734187, 3204031479, 3329325298]

/-- SHA-256 initial state. -/
def sha256H0 : List Nat :=
  [1779033703, 3144134277, 1013904242, 2773480762, 1359893119, 2600822924,
   528734635, 1541459225]

/-- Extend a 16-word block to the 64-word message schedule. -/
def sha256Schedule (w : List Nat) : List Nat :=
  (List.range 48).foldl
    (fun w _ =>
      let j := w.length
      let w15 := w.getD (j - 15) 0
      let w2 := w.getD (j - 2) 0
      let s0 := rotr32 7 w15 ^^^ rotr32 18 w15 ^^^ (w15 >>> 3)
      let s1 := rotr32 17 w2 ^^^ rotr32 19 w2 ^^^ (w2 >>> 10)
      w ++ [t32 (w.getD (j - 16) 0 + s0 + w.getD (j - 7) 0 + s1)])
    w

/-- One SHA-256 compression step over a 64-byte block. -/
def sha256Compress (h : List Nat) (blk : Bytes) : List Nat :=
  let w := sha256Schedule ((chunksOf 4 blk).map fromBytesBE)
  let st := (sha256K.zip w).foldl
    (fun st kw =>
      match st with
      | (a, b, c, d, e, f, g, hh) =>
        let s1 := rotr32 6 e ^^^ rotr32 11 e ^^^ rotr32 25 e
        let ch := (e &&& f) ^^^ (not32 e &&& g)
        let t1 := t32 (hh + s1 + ch + kw.1 + kw.2)
        let s0 := rotr32 2 a ^^^ rotr32 13 a ^^^ rotr32 22 a
        let mj := (a &&& b) ^^^ (a &&& c) ^^^ (b &&& c)
        let t2 := t32 (s0 + mj)
        (t32 (t1 + t2), a, b, c, t32 (d + t1), e, f, g))
    (h.getD 0 0, h.getD 1 0, h.getD 2 0, h.getD 3 0,
     h.getD 4 0, h.getD 5 0, h.getD 6 0, h.getD 7 0)
  match st with
  | (a, b, c, d, e, f, g, hh) =>
    [t32 (h.getD 0 0 + a), t32 (h.getD 1 0 + b), t32 (h.getD 2 0 + c),
     t32 (h.getD 3 0 + d), t32 (h.getD 4 0 + e), t32 (h.getD 5 0 + f),
     t32 (h.getD 6 0 + g), t32 (h.getD 7 0 + hh)]

/-- Merkle–Damgard padding shared by SHA-256 (big-endian length). -/
def shaPad (msg : Bytes) : Bytes :=
  msg ++ [128] ++ List.replicate ((64 - (msg.length + 9) % 64) % 64) 0
      ++ toBytesBE 8 (msg.length * 8)

/-- SHA-256 digest (32 bytes) of a byte string. -/
def sha256 (msg : Bytes) : Bytes :=
  ((chunksOf 64 (shaPad msg)).foldl sha256Compress sha256H0).flatMap (toBytesBE 4)

/-- Lowercase hex rendering of bytes (hashlib hexdigest). -/
def bytesToHex (bs : Bytes) : PyStr :=
  bs.flatMap fun b =>
    let hexDigit := fun n => if n < 10 then 48 + n else 87 + n
    [hexDigit (b / 16), hexDigit (b % 16)]

/-! ### MD5 (hashlib.md5) -/

/-- MD5 sine-derived round constants. -/
def md5K : List Nat :=
  [3614090360, 3905402710, 606105819, 3250441966, 4118548399, 1200080426,
   2821735955, 4249261313, 1770035416, 2336552879, 4294925233, 2304563134,
   1804603682, 4254626195, 2792965006, 1236535329, 4129170786, 3225465664,
   643717713, 3921069994, 3593408605, 38016083, 3634488961, 3889429448,
   568446438, 3275163606, 4107603335, 1163531501, 2850285829, 4243563512,
   1735328473, 2368359562, 4294588738, 2272392833, 1839030562, 4259657740,
   2763975236, 1272893353, 4139469664, 3200236656, 681279174, 3936430074,
   3572445317, 76029189, 3654602809, 3873151461, 530742520, 3299628645,
   4096336452, 1126891415, 2878612391, 4237533241, 1700485571, 2399980690,
   4293915773, 2240044497, 1873313359, 4264355552, 2734768916, 1309151649,
   4149444226, 3174756917, 718787259, 3951481745]

/-- MD5 per-round left-rotation amounts. -/
def md5S : List Nat :=
  [7, 12, 17, 22, 7, 12, 17, 22, 7, 12, 17, 22, 7, 12, 17, 22,
   5, 9, 14, 20, 5, 9, 14, 20, 5, 9, 14, 20, 5, 9, 14, 20,
   4, 11, 16, 23, 4, 11, 16, 23, 4, 11, 16, 23, 4, 11, 16, 23,
   6, 10, 15, 21, 6, 10, 15, 21, 6, 10, 15, 21, 6, 10, 15, 21]

/-- One MD5 compression step over a 64-byte block. -/
def md5Compress (st : Nat × Nat × Nat × Nat) (blk : Bytes) : Nat × Nat × Nat × Nat :=
  let m := (chunksOf 4 blk).map fromBytesLE
  let r := (List.range 64).foldl
    (fun s j =>
      match s with
      | (a, b, c, d) =>
        let fg :=
          if j < 16 then ((b &&& c) ||| (not32 b &&& d), j)
          else if j < 32 then ((d &&& b) ||| (not32 d &&& c), (5 * j + 1) % 16)
          else if j < 48 then (b ^^^ c ^^^ d, (3 * j + 5) % 16)
          else (c ^^^ (b ||| not32 d), 7 * j % 16)
        let f := t32 (fg.1 + a + md5K.getD j 0 + m.getD fg.2 0)
        (d, t32 (b + rotl32 (md5S.getD j 0) f), b, c))
    st
  match st, r with
  | (a0, b0, c0, d0), (a, b, c, d) =>
    (t32 (a0 + a), t32 (b0 + b), t32 (c0 + c), t32 (d0 + d))

/-- MD5 padding (little-endian length). -/
def md5Pad (msg : Bytes) : Bytes :=
  msg ++ [128] ++ List.replicate ((64 - (msg.length + 9) % 64) % 64) 0
      ++ toBytesLE 8 (msg.length * 8 % 2 ^ 64)

/-- MD5 digest (16 bytes) of a byte string. -/
def md5 (msg : Bytes) : Bytes :=
  match (chunksOf 64 (md5Pad msg)).foldl md5Compress
      (1732584193, 4023233417, 2562383102, 271733878) with
  | (a, b, c, d) => toBytesLE 4 a ++ toBytesLE 4 b ++ toBytesLE 4 c ++ toBytesLE 4 d

/-! ### CRC-32 (zlib.crc32) -/

/-- Eight shift-xor steps of the reflected CRC-32 polynomial. -/
def crc32Byte (crc : Nat) (b : Nat) : Nat :=
  (List.range 8).foldl
    (fun c _ => if c % 2 = 1 then (c >>> 1) ^^^ 3988292384 else c >>> 1)
    (crc ^^^ b)

/-- The byte loop of crc32.  The accumulator is forced through a match at
each step (semantically the identity) so that kernel evaluation keeps a
bounded stack instead of building a lazy chain over the whole input. -/
def crc32Aux : Bytes → Nat → Nat
  | [], crc => crc
  | b :: t, crc =>
    match crc32Byte crc b with
    | 0 => crc32Aux t 0
    | m + 1 => crc32Aux t (m + 1)

/-- zlib.crc32 of a byte string (already masked to 32 bits). -/
def crc32 (bs : Bytes) : Nat :=
  (crc32Aux bs 4294967295) ^^^ 4294967295

/-! ### Base64 (base64.b64encode / b64decode) -/

/-- The standard base64 alphabet, as code points. -/
def b64Alphabet : PyStr :=
  pstr "ABCDEFGHIJKLMNOPQRSTUVWXYZabcdefghijklmnopqrstuvwxyz0123456789+/"

/-- base64.b64encode of a byte string, returned as text code points. -/
def b64encode (bs : Bytes) : PyStr :=
  (chunksOf 3 bs).flatMap fun grp =>
    match grp with
    | [a, b, c] =>
      let n := a * 65536 + b * 256 + c
      [b64Alphabet.getD (n / 262144) 0, b64Alphabet.getD (n / 4096 % 64) 0,
       b64Alphabet.getD (n / 64 % 64) 0, b64Alphabet.getD (n % 64) 0]
    | [a, b] =>
      let n := a * 65536 + b * 256
      [b64Alphabet.getD (n / 262144) 0, b64Alphabet.getD (n / 4096 % 64) 0,
       b64Alphabet.getD (n / 64 % 64) 0, 61]
    | [a] =>
      let n := a * 65536
      [b64Alphabet.getD (n / 262144) 0, b64Alphabet.getD (n / 4096 % 64) 0, 61, 61]
    | _ => []

/-- Value of one base64 alphabet character, none for anything else. -/
def b64Val (c : Nat) : Option Nat :=
  match b64Alphabet.indexOf? c with
  | some i => some i
  | none => none

/-- Decode base64 4-character groups; the final group may carry one or two
padding characters.  none on any malformed group. -/
def b64DecodeGroups : List PyStr → Option Bytes
  | [] => some []
  | g :: rest =>
    match g with
    | [a, b, c, d] => do
      let va ← b64Val a
      let vb ← b64Val b
      if d = 61 then
        if rest ≠ [] then none
        else if c = 61 then
          some [(va * 4 + vb / 16) % 256]
        else do
          let vc ← b64Val c
          some [(va * 4 + vb / 16) % 256, (vb % 16 * 16 + vc / 4) % 256]
      else do
        let vc ← b64Val c
        let vd ← b64Val d
        let tl ← b64DecodeGroups rest
        some ([(va * 4 + vb / 16) % 256, (vb % 16 * 16 + vc / 4) % 256,
               (vc % 4 * 64 + vd) % 256] ++ tl)
    | _ => none

/-- base64.b64decode (validate=False): characters outside the alphabet and
padding are discarded first, then the remaining length must be a multiple of
four.  none models binascii.Error. -/
def b64decode (s : PyStr) : Option Bytes :=
  let filtered := s.filter fun c => (b64Alphabet.contains c) || c = 61
  if filtered.length % 4 = 0 then b64DecodeGroups (chunksOf 4 filtered)
  else none

/-! ### UTF-8 (str.encode / bytes.decode) -/

/-- UTF-8 encoding of a single code point (assumed to not be a surrogate). -/
def utf8EncodeCp (c : Nat) : Bytes :=
  if c < 128 then [c]
  else if c < 2048 then [192 + c / 64, 128 + c % 64]
  else if c < 65536 then [224 + c / 4096, 128 + c / 64 % 64, 128 + c % 64]
  else [240 + c / 262144, 128 + c / 4096 % 64, 128 + c / 64 % 64, 128 + c % 64]

/-- str.encode('utf-8'). -/
def utf8Encode (s : PyStr) : Bytes :=
  s.flatMap utf8EncodeCp

/-- Is b a UTF-8 continuation byte (0x80..0xBF)? -/
def isCont (b : Nat) : Bool :=
  128 ≤ b && b < 192

/-- bytes.decode('utf-8', errors='ignore'): decode maximal valid sequences,
dropping invalid bytes silently, as CPython's decoder does (including the
restricted second-byte ranges that exclude overlong forms and surrogates). -/
def utf8DecodeIgnoreAux : Nat → Bytes → PyStr
  | 0, _ => []
  | _, [] => []
  | fuel + 1, b :: rest =>
    if b < 128 then b :: utf8DecodeIgnoreAux fuel rest
    else if b < 194 then utf8DecodeIgnoreAux fuel rest
    else if b < 224 then
      match rest with
      | c1 :: r1 =>
        if isCont c1 then ((b - 192) * 64 + (c1 - 128)) :: utf8DecodeIgnoreAux fuel r1
        else utf8DecodeIgnoreAux fuel rest
      | [] => []
    else if b < 240 then
      match rest with
      | c1 :: r1 =>
        let lo := if b = 224 then 160 else 128
        let hi := if b = 237 then 160 else 192
        if lo ≤ c1 && c1 < hi then
          match r1 with
          | c2 :: r2 =>
            if isCont c2 then
              ((b - 224) * 4096 + (c1 - 128) * 64 + (c2 - 128)) :: utf8DecodeIgnoreAux fuel r2
            else utf8DecodeIgnoreAux fuel r1
          | [] => []
        else utf8DecodeIgnoreAux fuel rest
      | [] => []
    else if b < 245 then
      match rest with
      | c1 :: r1 =>
        let lo := if b = 240 then 144 else 128
        let hi := if b = 244 then 144 else 192
        if lo ≤ c1 && c1 < hi then
          match r1 with
          | c2 :: r2 =>
            if isCont c2 then
              match r2 with
              | c3 :: r3 =>
                if isCont c3 then
                  ((b - 240) * 262144 + (c1 - 128) * 4096 + (c2 - 128) * 64 + (c3 - 128)) ::
                    utf8DecodeIgnoreAux fuel r3
                else utf8DecodeIgnoreAux fuel r2
              | [] => []
            else utf8DecodeIgnoreAux fuel r1
          | [] => []
        else utf8DecodeIgnoreAux fuel rest
      | [] => []
    else utf8DecodeIgnoreAux fuel rest

/-- bytes.decode('utf-8', errors='ignore'). -/
def utf8DecodeIgnore (bs : Bytes) : PyStr :=
  utf8DecodeIgnoreAux bs.length bs

/-! ### Python json module -/

/-- A JSON value as produced or consumed by Python's json module (floats are
kept as their raw digit text, which the engine never produces). -/
inductive PyJson where
  | str (s : PyStr)
  | int (n : Int)
  | floatLit (raw : PyStr)
  | bool (b : Bool)
  | null
  | arr (elems : List PyJson)
  | obj (fields : List (PyStr × PyJson))

/-- json.dumps escaping of one code point (default ensure_ascii=True). -/
def jsonEscapeCp (c : Nat) : PyStr :=
  let hex4 := fun (n : Nat) =>
    let d := fun k => if k < 10 then 48 + k else 87 + k
    [d (n / 4096 % 16), d (n / 256 % 16), d (n / 16 % 16), d (n % 16)]
  if c = 34 then [92, 34]
  else if c = 92 then [92, 92]
  else if c = 8 then [92, 98]
  else if c = 12 then [92, 102]
  else if c = 10 then [92, 110]
  else if c = 13 then [92, 114]
  else if c = 9 then [92, 116]
  else if c < 32 then 92 :: 117 :: hex4 c
  else if c < 127 then [c]
  else if c < 65536 then 92 :: 117 :: hex4 c
  else
    let v := c - 65536
    (92 :: 117 :: hex4 (55296 + v / 1024)) ++ (92 :: 117 :: hex4 (56320 + v % 1024))

/-- json.dumps rendering of a string, quotes included. -/
def jsonDumpStr (s : PyStr) : PyStr :=
  34 :: s.flatMap jsonEscapeCp ++ [34]

/-- Interpose sep between the rendered items. -/
def joinSep (sep : PyStr) (items : List PyStr) : PyStr :=
  (items.intersperse sep).flatMap id

/-- Fuel-bounded body of json.dumps (structural recursion on fuel so the
kernel can evaluate it; the fuel is never exhausted at the nesting depths the
engine produces).  sortKeys mirrors sort_keys=True using a stable insertion
sort on the keys (CPython uses a stable sort as well; dict keys are unique so
stability is immaterial there). -/
def pyJsonDumpsAux (sortKeys : Bool) : Nat → PyJson → PyStr
  | 0, _ => []
  | fuel + 1, j =>
    match j with
    | PyJson.str s => jsonDumpStr s
    | PyJson.int n => intDecimal n
    | PyJson.floatLit raw => raw
    | PyJson.bool b => if b then pstr "true" else pstr "false"
    | PyJson.null => pstr "null"
    | PyJson.arr elems =>
      91 :: joinSep (pstr ", ") (elems.map (pyJsonDumpsAux sortKeys fuel)) ++ [93]
    | PyJson.obj fields =>
      let rendered := fields.map fun f =>
        (f.1, jsonDumpStr f.1 ++ pstr ": " ++ pyJsonDumpsAux sortKeys fuel f.2)
      let ordered :=
        if sortKeys then
          rendered.insertionSort (fun a b => lexLe a.1 b.1 = true)
        else rendered
      123 :: joinSep (pstr ", ") (ordered.map (·.2)) ++ [125]

/-- json.dumps with default separators (ensure_ascii=True). -/
def pyJsonDumps (sortKeys : Bool) (j : PyJson) : PyStr :=
  pyJsonDumpsAux sortKeys 1000 j

/-- JSON whitespace skip (space, tab, newline, carriage return). -/
def skipWs (s : PyStr) : PyStr :=
  s.dropWhile fun c => c = 32 || c = 9 || c = 10 || c = 13

/-- Is c an ASCII decimal digit? -/
def isDigit (c : Nat) : Bool :=
  48 ≤ c && c ≤ 57

/-- Value of a hex digit code point. -/
def hexVal (c : Nat) : Option Nat :=
  if 48 ≤ c && c ≤ 57 then some (c - 48)
  else if 97 ≤ c && c ≤ 102 then some (c - 87)
  else if 65 ≤ c && c ≤ 70 then some (c - 55)
  else none

/-- Parse the four hex digits of a \u escape. -/
def parseHex4 : PyStr → Option (Nat × PyStr)
  | a :: b :: c :: d :: rest => do
    let va ← hexVal a
    let vb ← hexVal b
    let vc ← hexVal c
    let vd ← hexVal d
    some (va * 4096 + vb * 256 + vc * 16 + vd, rest)
  | _ => none

/-- Parse the body of a JSON string after the opening quote (json.loads,
strict mode: raw control characters below 0x20 are rejected).  Surrogate
escape pairs are combined, as CPython does. -/
def parseJsonStringAux : Nat → PyStr → Option (PyStr × PyStr)
  | 0, _ => none
  | _, [] => none
  | fuel + 1, c :: rest =>
    if c = 34 then some ([], rest)
    else if c = 92 then
      match rest with
      | [] => none
      | e :: r1 =>
        if e = 117 then do
          let (n, r2) ← parseHex4 r1
          if 55296 ≤ n && n < 56320 then
            match r2 with
            | 92 :: 117 :: r3 => do
              let (n2, r4) ← parseHex4 r3
              if 56320 ≤ n2 && n2 < 57344 then do
                let (s, r5) ← parseJsonStringAux fuel r4
                some ((65536 + (n - 55296) * 1024 + (n2 - 56320)) :: s, r5)
              else do
                let (s, r4') ← parseJsonStringAux fuel (92 :: 117 :: r3)
                some (n :: s, r4')
            | _ => do
              let (s, r3) ← parseJsonStringAux fuel r2
              some (n :: s, r3)
          else do
            let (s, r3) ← parseJsonStringAux fuel r2
            some (n :: s, r3)
        else do
          let v ←
            if e = 34 then some 34
            else if e = 92 then some 92
            else if e = 47 then some 47
            else if e = 98 then some 8
            else if e = 102 then some 12
            else if e = 110 then some 10
            else if e = 114 then some 13
            else if e = 116 then some 9
            else none
          let (s, r2) ← parseJsonStringAux fuel r1
          some (v :: s, r2)
    else if c < 32 then none
    else do
      let (s, r1) ← parseJsonStringAux fuel rest
      some (c :: s, r1)

/-- Parse a JSON number (CPython NUMBER_RE): optional minus, integer part
without leading zeros, optional fraction and exponent; a fraction or exponent
makes it a float, which we keep as raw text. -/
def parseJsonNumber (s : PyStr) : Option (PyJson × PyStr) :=
  let (neg, s1) := match s with
    | 45 :: r => (true, r)
    | _ => (false, s)
  match s1 with
  | [] => none
  | d :: _ =>
    if !isDigit d then none
    else
      let intPart := s1.takeWhile isDigit
      let rest1 := s1.dropWhile isDigit
      if intPart.length > 1 && intPart.getD 0 0 = 48 then none
      else
        let fracPart := match rest1 with
          | 46 :: r => if (r.takeWhile isDigit) = [] then none
                       else some (46 :: r.takeWhile isDigit, r.dropWhile isDigit)
          | _ => none
        let rest2 := match fracPart with
          | some (_, r) => r
          | none => rest1
        let expPart := match rest2 with
          | e :: r =>
            if e = 101 || e = 69 then
              let (sgn, r2) := match r with
                | 43 :: rr => ([43], rr)
                | 45 :: rr => ([45], rr)
                | _ => (([] : PyStr), r)
              if (r2.takeWhile isDigit) = [] then none
              else some (e :: sgn ++ r2.takeWhile isDigit, r2.dropWhile isDigit)
            else none
          | [] => none
        let rest3 := match expPart with
          | some (_, r) => r
          | none => rest2
        match fracPart, expPart with
        | none, none =>
          let v : Int := Int.ofNat (intPart.foldl (fun acc c => acc * 10 + (c - 48)) 0)
          some (PyJson.int (if neg then -v else v), rest1)
        | _, _ =>
          let raw := (if neg then [45] else []) ++ intPart
            ++ (match fracPart with | some (f, _) => f | none => [])
            ++ (match expPart with | some (e, _) => e | none => [])
          some (PyJson.floatLit raw, rest3)

/-- Member loop of a JSON object, parameterized by the value parser so that
the whole parser stays structurally recursive on fuel. -/
def objLoop (parseVal : PyStr → Option (PyJson × PyStr)) :
    Nat → PyStr → List (PyStr × PyJson) → Option (List (PyStr × PyJson) × PyStr)
  | 0, _, _ => none
  | ofuel + 1, s, acc =>
    match skipWs s with
    | 34 :: r1 => do
      let (key, r2) ← parseJsonStringAux (r1.length + 1) r1
      match skipWs r2 with
      | 58 :: r3 => do
        let (v, r4) ← parseVal (skipWs r3)
        match skipWs r4 with
        | 44 :: r5 => objLoop parseVal ofuel r5 (acc ++ [(key, v)])
        | 125 :: r5 => some (acc ++ [(key, v)], r5)
        | _ => none
      | _ => none
    | _ => none

/-- Element loop of a JSON array, parameterized like objLoop. -/
def arrLoop (parseVal : PyStr → Option (PyJson × PyStr)) :
    Nat → PyStr → List PyJson → Option (List PyJson × PyStr)
  | 0, _, _ => none
  | afuel + 1, s, acc => do
    let (v, r1) ← parseVal (skipWs s)
    match skipWs r1 with
    | 44 :: r2 => arrLoop parseVal afuel r2 (acc ++ [v])
    | 93 :: r2 => some (acc ++ [v], r2)
    | _ => none

/-- Parse a JSON value; fuel-bounded recursion (json.loads). -/
def parseJsonValue : Nat → PyStr → Option (PyJson × PyStr)
  | 0, _ => none
  | fuel + 1, s =>
    match s with
    | [] => none
    | c :: rest =>
      if c = 34 then do
        let (str, r) ← parseJsonStringAux (rest.length + 1) rest
        some (PyJson.str str, r)
      else if c = 123 then
        match skipWs rest with
        | 125 :: r => some (PyJson.obj [], r)
        | _ => do
          let (fields, r) ← objLoop (parseJsonValue fuel) (rest.length + 1) rest []
          some (PyJson.obj fields, r)
      else if c = 91 then
        match skipWs rest with
        | 93 :: r => some (PyJson.arr [], r)
        | _ => do
          let (elems, r) ← arrLoop (parseJsonValue fuel) (rest.length + 1) rest []
          some (PyJson.arr elems, r)
      else if c = 116 then
        match rest with
        | 114 :: 117 :: 101 :: r => some (PyJson.bool true, r)
        | _ => none
      else if c = 102 then
        match rest with
        | 97 :: 108 :: 115 :: 101 :: r => some (PyJson.bool false, r)
        | _ => none
      else if c = 110 then
        match rest with
        | 117 :: 108 :: 108 :: r => some (PyJson.null, r)
        | _ => none
      else parseJsonNumber s

/-- json.loads: parse one value surrounded by optional whitespace. -/
def pyJsonLoads (s : PyStr) : Option PyJson := do
  let (v, rest) ← parseJsonValue (s.length + 1) (skipWs s)
  if skipWs rest = [] then some v else none

/-! ### Payload record and watermark hash
Source: src/backend/app/models/schemas.py (WatermarkPayload) and
src/backend/app/core/hashing/watermark_hash.py. -/

/-- The WatermarkPayload pydantic model, in its field declaration order
user_id, timestamp, metadata_hash, content_hash, license. -/
structure WatermarkPayload where
  user_id : PyStr
  timestamp : Int
  metadata_hash : PyStr
  content_hash : PyStr
  license : PyStr
deriving DecidableEq

/-- payload.model_dump() as an ordered field list (pydantic keeps the
declaration order of the model fields). -/
def modelDumpFields (p : WatermarkPayload) : List (PyStr × PyJson) :=
  [(pstr "user_id", PyJson.str p.user_id),
   (pstr "timestamp", PyJson.int p.timestamp),
   (pstr "metadata_hash", PyJson.str p.metadata_hash),
   (pstr "content_hash", PyJson.str p.content_hash),
   (pstr "license", PyJson.str p.license)]

/-- generate_watermark_hash (watermark_hash.py lines 9-33): sha256 hexdigest
of json.dumps(hash_data, sort_keys=True).encode('utf-8'), where hash_data
holds only user_id, timestamp, metadata_hash and license. -/
def generate_watermark_hash (p : WatermarkPayload) : PyStr :=
  let hash_data : List (PyStr × PyJson) :=
    [(pstr "user_id", PyJson.str p.user_id),
     (pstr "timestamp", PyJson.int p.timestamp),
     (pstr "metadata_hash", PyJson.str p.metadata_hash),
     (pstr "license", PyJson.str p.license)]
  bytesToHex (sha256 (utf8Encode (pyJsonDumps true (PyJson.obj hash_data))))

/-- The bytes embedded into every carrier (watermark_service.py line 166):
json.dumps(payload.model_dump()).encode('utf-8'), with json.dumps called
without sort_keys. -/
def watermark_data_bytes (p : WatermarkPayload) : Bytes :=
  utf8Encode (pyJsonDumps false (PyJson.obj (modelDumpFields p)))

/-- Last-wins association lookup (Python dict construction from parsed JSON
keeps the last duplicate key). -/
def lookupLast (fields : List (PyStr × PyJson)) (k : PyStr) : Option PyJson :=
  (fields.filter fun f => f.1 = k).getLast? |>.map (·.2)

/-- WatermarkPayload(**payload_dict) (verification_service.py line 110):
requires the five fields with their declared types; extra keys are ignored,
as pydantic does by default. -/
def parseWatermarkPayload (j : PyJson) : Option WatermarkPayload :=
  match j with
  | PyJson.obj fields => do
    let uid ← lookupLast fields (pstr "user_id")
    let ts ← lookupLast fields (pstr "timestamp")
    let mh ← lookupLast fields (pstr "metadata_hash")
    let ch ← lookupLast fields (pstr "content_hash")
    let lic ← lookupLast fields (pstr "license")
    match uid, ts, mh, ch, lic with
    | PyJson.str u, PyJson.int t, PyJson.str m, PyJson.str c, PyJson.str l =>
      some ⟨u, t, m, c, l⟩
    | _, _, _, _, _ => none
  | _ => none

/-- The verification service reparse of extracted bytes (lines 106-110):
decode UTF-8 with errors='ignore', json.loads, then validate the model. -/
def reparseExtracted (bs : Bytes) : Option WatermarkPayload := do
  let j ← pyJsonLoads (utf8DecodeIgnore bs)
  parseWatermarkPayload j

/-- Modelled from the spec (section 3, Watermark hash): the canonicalized
subset of the payload record with exactly the fields user_id, timestamp,
metadata_hash and license, serialized as a mapping with keys in sorted
lexicographic order (license < metadata_hash < timestamp < user_id) and the
stable textual JSON encoding. -/
def specCanonicalHashMapping (p : WatermarkPayload) : PyStr :=
  123 :: joinSep (pstr ", ")
    [jsonDumpStr (pstr "license") ++ pstr ": " ++ jsonDumpStr p.license,
     jsonDumpStr (pstr "metadata_hash") ++ pstr ": " ++ jsonDumpStr p.metadata_hash,
     jsonDumpStr (pstr "timestamp") ++ pstr ": " ++ intDecimal p.timestamp,
     jsonDumpStr (pstr "user_id") ++ pstr ": " ++ jsonDumpStr p.user_id] ++ [125]

/-- Modelled from the spec wording of claim C7: the full five-field payload
record serialized as a mapping with keys in lexicographic order
(content_hash, license, metadata_hash, timestamp, user_id). -/
def specLexPayloadMapping (p : WatermarkPayload) : PyStr :=
  123 :: joinSep (pstr ", ")
    [jsonDumpStr (pstr "content_hash") ++ pstr ": " ++ jsonDumpStr p.content_hash,
     jsonDumpStr (pstr "license") ++ pstr ": " ++ jsonDumpStr p.license,
     jsonDumpStr (pstr "metadata_hash") ++ pstr ": " ++ jsonDumpStr p.metadata_hash,
     jsonDumpStr (pstr "timestamp") ++ pstr ": " ++ intDecimal p.timestamp,
     jsonDumpStr (pstr "user_id") ++ pstr ": " ++ jsonDumpStr p.user_id] ++ [125]

/-- The five-field payload record serialized in the model field declaration
order user_id, timestamp, metadata_hash, content_hash, license, written out
directly for comparison with the source serialization. -/
def specDeclOrderPayloadMapping (p : WatermarkPayload) : PyStr :=
  123 :: joinSep (pstr ", ")
    [jsonDumpStr (pstr "user_id") ++ pstr ": " ++ jsonDumpStr p.user_id,
     jsonDumpStr (pstr "timestamp") ++ pstr ": " ++ intDecimal p.timestamp,
     jsonDumpStr (pstr "metadata_hash") ++ pstr ": " ++ jsonDumpStr p.metadata_hash,
     jsonDumpStr (pstr "content_hash") ++ pstr ": " ++ jsonDumpStr p.content_hash,
     jsonDumpStr (pstr "license") ++ pstr ": " ++ jsonDumpStr p.license] ++ [125]

/-- A concrete payload record used by several counterexamples. -/
def samplePayload : WatermarkPayload :=
  { user_id := pstr "alice"
    timestamp := 1700000000
    metadata_hash := pstr "9c56cc51b374c3ba189210d5b6d4bf57790d351c96c47c02190ecf1e430635ab"
    content_hash := pstr "2cf24dba5fb0a30e26e83b2ac5b9e29e1b161e5c1fa7425e73043362938b9824"
    license := pstr "CC-BY" }

/-- Error kinds of the engine.  The source raises WatermarkingException with
distinguishing message strings; each constructor names one raise site. -/
inductive WMError where
  /-- audio_watermark.py line 64: "Watermark data too large (max 65535 bytes)". -/
  | dataTooLarge
  /-- audio_watermark.py line 122: "Audio too short for watermark". -/
  | audioTooShort
  /-- audio_watermark.py line 345: extraction exhausted all parameter combinations. -/
  | noWatermarkFound
  /-- watermark_service.py line 333: all audio extraction strategies failed. -/
  | allAudioStrategiesFailed
  /-- metadata_watermark.py line 111: "Invalid PNG format". -/
  | invalidPng
  /-- metadata_watermark.py line 280: "No watermark found in PNG metadata". -/
  | noPngMetadataWatermark
  /-- metadata_watermark.py line 183: wrapper around any extraction failure. -/
  | metadataExtractFailed
  /-- audio_watermark.py line 43: "Alpha must be between 0.01 and 0.5". -/
  | invalidAlpha
  /-- watermark_service.py line 391: all image extraction methods failed. -/
  | imageExtractAllFailed
  /-- verification_service.py line 72: no image verification method succeeded. -/
  | verifyExtractionFailed
  /-- verification_service.py line 112: "Invalid watermark format". -/
  | invalidWatermarkFormat
deriving DecidableEq

/-! ### Audio DCT/QIM watermarker
Source: src/backend/app/core/watermarking/audio/audio_watermark.py. -/

/-- MAGIC_PATTERN (line 26): the fixed 16-bit sync pattern. -/
def MAGIC_PATTERN : List Nat :=
  [1, 0, 1, 1, 0, 0, 1, 0, 1, 1, 1, 0, 0, 1, 0, 1]

/-- The eight bits of one byte, most significant first. -/
def byteBits (b : Nat) : List Nat :=
  [b / 128 % 2, b / 64 % 2, b / 32 % 2, b / 16 % 2, b / 8 % 2, b / 4 % 2, b / 2 % 2, b % 2]

/-- np.unpackbits: each byte becomes eight bits, most significant first. -/
def unpackbits (bs : Bytes) : List Nat :=
  bs.flatMap byteBits

/-- np.packbits: groups of eight bits (already 0/1 here), the last group
zero-padded on the right, most significant first (the power factor supplies
the padding zeros). -/
def packbits (bits : List Nat) : Bytes :=
  (chunksOf 8 bits).map fun g =>
    (g.foldl (fun acc bit => acc * 2 + bit % 2) 0) * 2 ^ (8 - g.length)

/-- _prepare_watermark (lines 53-80): optionally prepend the 8-byte MD5
prefix of the personalization label (only when the label is truthy, that is
neither None nor empty), add the 2-byte big-endian length and the 4-byte MD5
checksum, unpack to bits and put the sync pattern in front. -/
def prepare_watermark (personalization_hash : Option PyStr) (data : Bytes)
    (include_params : Bool := true) : Except WMError (List Nat) :=
  let data :=
    match personalization_hash with
    | some h => if include_params && !h.isEmpty then (md5 (utf8Encode h)).take 8 ++ data else data
    | none => data
  if data.length > 65535 then Except.error WMError.dataTooLarge
  else
    let checksum := (md5 data).take 4
    let watermark_data := toBytesBE 2 data.length ++ checksum ++ data
    Except.ok (MAGIC_PATTERN ++ unpackbits watermark_data)

/-- Number of blocks produced by _apply_dct_2d (lines 82-94): the signal is
zero-padded up to a multiple of block_size. -/
def dctBlockCount (audioLen block_size : Nat) : Nat :=
  if block_size = 0 then 0
  else (audioLen + (block_size - audioLen % block_size) % block_size) / block_size

/-- Capacity guard of _embed_in_dct (lines 106-125): coefficients
8..min(24, block_size/2) of each block carry one bit each; the guard raises
AudioTooShort when the frame bits exceed blocks * coefs_per_block.  The
coefficient modulation after the guard cannot fail and no claim depends on
it, so the successful branch returns unit.  Int arithmetic mirrors Python:
for block_size < 16 the capacity is negative. -/
def embed_in_dct_check (audioLen block_size : Nat) (watermark_bits : List Nat) :
    Except WMError Unit :=
  let coef_start : Int := 8
  let coef_end : Int := min 24 ((block_size : Int) / 2)
  let coefs_per_block : Int := coef_end - coef_start
  let total_capacity : Int := (dctBlockCount audioLen block_size : Int) * coefs_per_block
  if (watermark_bits.length : Int) > total_capacity then Except.error WMError.audioTooShort
  else Except.ok ()

/-- The framing part of AudioWatermarker.embed (lines 258-285) for a signal
of audioLen samples: build the framed bits, then run the capacity guard. -/
def audioEmbedFraming (personalization_hash : Option PyStr) (block_size audioLen : Nat)
    (watermark_data : Bytes) : Except WMError (List Nat) := do
  let bits ← prepare_watermark personalization_hash watermark_data
  let _ ← embed_in_dct_check audioLen block_size bits
  Except.ok bits

/-- Matching bit count between the 16-bit window at position i and the sync
pattern (line 209). -/
def syncMatches (bits : List Nat) (i : Nat) : Nat :=
  (((bits.drop i).take 16).zip MAGIC_PATTERN).countP fun ab => ab.1 == ab.2

/-- Candidate positions of _find_sync_pattern with their match counts: the
first min(max_search, len - 16) window positions whose match ratio
matches/16 is at least the binary double 0.65, which for integer matches out
of 16 is exactly "at least 11", written here as 13 * 16 <= 20 * matches. -/
def syncCandidates (bits : List Nat) (max_search : Nat) : List (Nat × Nat) :=
  (List.range (min max_search (bits.length - MAGIC_PATTERN.length))).filterMap fun i =>
    if 13 * 16 ≤ 20 * syncMatches bits i then some (i, syncMatches bits i) else none

/-- _find_sync_pattern (lines 201-218): candidate positions sorted by
descending match quality; Python's sort is stable, as is the insertion sort
used here. -/
def find_sync_pattern (bits : List Nat) (max_search : Nat := 2000) : List Nat :=
  ((syncCandidates bits max_search).insertionSort fun a b => b.2 ≤ a.2).map (·.1)

/-- _try_extract_at_position (lines 220-256): read the 16-bit length, the
32-bit checksum and the data bits, verify the 4-byte MD5 checksum. -/
def try_extract_at_position (bits : List Nat) (start_pos : Nat) : Option Bytes :=
  let data_bits := bits.drop start_pos
  if data_bits.length < 48 then none
  else
    let watermark_length := fromBytesBE (packbits (data_bits.take 16))
    if watermark_length = 0 || watermark_length > 65535 then none
    else
      let required_bits := 48 + watermark_length * 8
      if data_bits.length < required_bits then none
      else
        let checksum := packbits ((data_bits.drop 16).take 32)
        let watermark_data := packbits ((data_bits.drop 48).take (watermark_length * 8))
        if checksum = (md5 watermark_data).take 4 then some watermark_data else none

/-- QIM decode of a single coefficient (lines 185-194), over exact rationals
standing for the binary doubles of the source. -/
def qimDecodeBit (alpha coef : ℚ) : Nat :=
  let delta := max (alpha * |coef|) (alpha * (1 / 1000))
  let q := |coef| / delta
  let remainder := q - Int.floor q
  if 1 / 4 < remainder ∧ remainder < 3 / 4 then 1 else 0

/-- _extract_from_dct (lines 164-199) on oracle-provided DCT blocks: decode
the mid-band coefficients 8..min(24, block_size/2) of each block in order and
stop after max_bits bits. -/
def extract_from_dct (dctBlocks : List (List ℚ)) (block_size : Nat) (alpha : ℚ)
    (max_bits : Nat) : List Nat :=
  let coef_start := 8
  let coef_end := min 24 (block_size / 2)
  ((dctBlocks.flatMap fun blk =>
    ((blk.drop coef_start).take (coef_end - coef_start)).map (qimDecodeBit alpha)).take
    max_bits)

/-- AudioWatermarker state: configuration constants and the personalization
label (lines 28-51). -/
structure AudioWatermarker where
  alpha : ℚ
  block_size : Nat
  personalization_hash : Option PyStr
deriving DecidableEq

/-- AudioWatermarker.__init__ (lines 28-51): alpha must lie between 0.01 and
0.5 (library availability is tracked separately by the service layer). -/
def AudioWatermarker.init (alpha : ℚ) (block_size : Nat)
    (personalization_hash : Option PyStr) : Except WMError AudioWatermarker :=
  if 1 / 100 ≤ alpha ∧ alpha ≤ 1 / 2 then
    Except.ok ⟨alpha, block_size, personalization_hash⟩
  else Except.error WMError.invalidAlpha

/-- The binary double closest to 1.2, as used by int(blocks * coefs * 1.2)
(line 312); exact for every block count arising from bounded inputs. -/
def double12 : ℚ := 5404319552844595 / 4503599627370496

/-- First successful candidate (the for loops with early return). -/
def firstSome : List (Option α) → Option α
  | [] => none
  | some a :: _ => some a
  | none :: rest => firstSome rest

/-- AudioWatermarker.extract (lines 287-354) for an already-loaded mono
signal.  The scipy block DCT is an external dependency and is abstracted as
the oracle dctO; everything downstream of it is modelled from the source.
Each parameter combination extracts bits, looks for sync positions, tries
frame decodes at each, then brute-forces 8-bit-aligned offsets; the first
verified frame wins, and exhaustion raises. -/
def AudioWatermarker.extract (w : AudioWatermarker) (audioData : List ℚ)
    (dctO : Nat → List ℚ → List (List ℚ)) : Except WMError Bytes :=
  let param_combinations : List (Nat × ℚ) :=
    [(w.block_size, w.alpha), (1024, 1 / 20), (1024, 3 / 100), (1024, 7 / 100),
     (512, 1 / 20), (2048, 1 / 20)]
  let tryCombo := fun (bs : Nat) (alpha : ℚ) =>
    let dct_blocks_count := (audioData.length + bs - 1) / bs
    let coefs_per_block := min 24 (bs / 2) - 8
    let max_bits :=
      max (Int.toNat (Int.floor ((dct_blocks_count * coefs_per_block : Nat) * double12))) 2000
    let extracted_bits := extract_from_dct (dctO bs audioData) bs alpha max_bits
    if extracted_bits.length = 0 then none
    else
      let sync_positions := find_sync_pattern extracted_bits
      let viaSync := firstSome (sync_positions.map fun sync_pos =>
        try_extract_at_position extracted_bits (sync_pos + MAGIC_PATTERN.length))
      match viaSync with
      | some d => some d
      | none =>
        let offsets :=
          (List.range ((min 500 (extracted_bits.length - 100) + 7) / 8)).map (· * 8)
        firstSome (offsets.map fun o => try_extract_at_position extracted_bits o)
  match firstSome (param_combinations.map fun p => tryCombo p.1 p.2) with
  | some d => Except.ok d
  | none => Except.error WMError.noWatermarkFound

/-- ASCII lowercasing (str.lower on the extensions the engine handles). -/
def lowerAscii (s : PyStr) : PyStr :=
  s.map fun c => if 65 ≤ c && c ≤ 90 then c + 32 else c

/-- AudioWatermarker.supports_format (lines 356-359). -/
def audioSupportsFormat (ext : PyStr) : Bool :=
  [pstr ".wav", pstr ".mp3", pstr ".flac", pstr ".ogg", pstr ".m4a", pstr ".aac"].contains
    (lowerAscii ext)

/-- WatermarkService.audio_watermarker (watermark_service.py lines 55-63):
build a fresh AudioWatermarker with the default alpha 0.05 and block size
1024; a missing audio library or a failed construction yields None. -/
def service_audio_watermarker (libsAvailable : Bool) (personalization_hash : Option PyStr) :
    Option AudioWatermarker :=
  if libsAvailable then
    match AudioWatermarker.init (1 / 20) 1024 personalization_hash with
    | Except.ok w => some w
    | Except.error _ => none
  else none

/-- Python truthiness of the optional personalization hash: neither None nor
the empty string. -/
def truthyHash : Option PyStr → Bool
  | some h => !h.isEmpty
  | none => false

/-- One strategy of the non-MP3 audio extraction: construct the watermarker
and, when it exists and supports the extension, run extraction; none models
a strategy whose guard failed so that no return statement executed. -/
def audioAttempt (libsAvailable : Bool) (ph : Option PyStr) (ext : PyStr)
    (audioData : List ℚ) (dctO : Nat → List ℚ → List (List ℚ)) :
    Option (Except WMError Bytes) :=
  match service_audio_watermarker libsAvailable ph with
  | some w => if audioSupportsFormat ext then some (w.extract audioData dctO) else none
  | none => none

/-- The non-MP3 branch of WatermarkService.extract_watermark (lines 290-338).
Strategy 1 runs only for a truthy caller hash and swallows its failure;
strategy 2 uses None; its exception handler nests strategy 3 (empty string)
and strategy 4 (the 64-zero and 64-f sentinels) before raising.  A guard that
fails without raising falls off the function, which Python reports as a None
result, modelled as ok none. -/
def extract_watermark_audio (libsAvailable : Bool) (personalization_hash : Option PyStr)
    (ext : PyStr) (audioData : List ℚ) (dctO : Nat → List ℚ → List (List ℚ)) :
    Except WMError (Option Bytes) :=
  let s4 :=
    match audioAttempt libsAvailable (some (pstr "0000000000000000000000000000000000000000000000000000000000000000")) ext audioData dctO with
    | some (Except.ok d) => Except.ok (some d)
    | _ =>
      match audioAttempt libsAvailable (some (pstr "ffffffffffffffffffffffffffffffffffffffffffffffffffffffffffffffff")) ext audioData dctO with
      | some (Except.ok d) => Except.ok (some d)
      | _ => Except.error WMError.allAudioStrategiesFailed
  let s3 :=
    match audioAttempt libsAvailable (some (pstr "")) ext audioData dctO with
    | some (Except.ok d) => Except.ok (some d)
    | some (Except.error _) => s4
    | none => Except.ok none
  let s2 :=
    match audioAttempt libsAvailable none ext audioData dctO with
    | some (Except.ok d) => Except.ok (some d)
    | some (Except.error _) => s3
    | none => Except.ok none
  if truthyHash personalization_hash then
    match audioAttempt libsAvailable personalization_hash ext audioData dctO with
    | some (Except.ok d) => Except.ok (some d)
    | _ => s2
  else s2

/-- Length of the frame body of _prepare_watermark: eight extra bytes exactly
when the personalization label is truthy. -/
def prepEffectiveLen (personalization_hash : Option PyStr) (data : Bytes) : Nat :=
  match personalization_hash with
  | some h => if !h.isEmpty then 8 + data.length else data.length
  | none => data.length

/-- A 17-bit stream whose only searched window matches the sync pattern in
exactly 11 of 16 positions (the last five pattern bits are complemented). -/
def elevenMatchBits : List Nat :=
  [1, 0, 1, 1, 0, 0, 1, 0, 1, 1, 1, 1, 1, 0, 1, 0, 0]

/-- A 17-bit stream whose only searched window matches the sync pattern in
exactly 10 of 16 positions (the last six pattern bits are complemented). -/
def tenMatchBits : List Nat :=
  [1, 0, 1, 1, 0, 0, 1, 0, 1, 1, 0, 1, 1, 0, 1, 0, 0]

/-- The bit-level extraction pipeline applied to an exactly recovered bit
stream, the designed behaviour of the DCT/QIM carrier (extract lines
320-337): frame decode at each sync candidate, then the brute-force
byte-aligned scan. -/
def audioExtractBits (bits : List Nat) : Option Bytes :=
  match firstSome ((find_sync_pattern bits).map fun sync_pos =>
      try_extract_at_position bits (sync_pos + MAGIC_PATTERN.length)) with
  | some d => some d
  | none =>
    firstSome (((List.range ((min 500 (bits.length - 100) + 7) / 8)).map (· * 8)).map
      fun o => try_extract_at_position bits o)

/-- The embed-side framing pipeline of the service for non-MP3 audio
(watermark_service.py lines 161-192): the payload bytes are framed by an
AudioWatermarker personalized with the watermark hash. -/
def serviceAudioFrameBits (p : WatermarkPayload) : Except WMError (List Nat) :=
  prepare_watermark (some (generate_watermark_hash p)) (watermark_data_bytes p)

/-- Whether an orchestrator result carries an extracted payload (ok some). -/
def resultYieldsPayload : Except WMError (Option Bytes) → Bool
  | Except.ok (some _) => true
  | _ => false

/-! ### PNG container metadata watermarker
Source: src/backend/app/core/watermarking/metadata/metadata_watermark.py. -/

/-- The 8-byte PNG signature. -/
def pngSignature : Bytes := [137, 80, 78, 71, 13, 10, 26, 10]

/-- The slice png_bytes[pos : pos + n]. -/
def slice (bs : Bytes) (pos n : Nat) : Bytes :=
  (bs.drop pos).take n

/-- bytes.rfind(pat): index of the last occurrence of pat, none if absent. -/
def rfindPat (hay pat : Bytes) : Option Nat :=
  ((List.range (hay.length + 1)).filter fun i => decide (slice hay i pat.length = pat)).getLast?

/-- One tEXt chunk as built by _embed_png_metadata (lines 124-135): 4-byte
big-endian data length, the type tEXt, keyword, NUL, text, CRC-32 over
type+data; latin-1 encoding is the identity on the code points involved. -/
def mkTextChunk (keyword text : Bytes) : Bytes :=
  let chunk_data_bytes := keyword ++ [0] ++ text
  let crc := crc32 (pstr "tEXt" ++ chunk_data_bytes)
  toBytesBE 4 chunk_data_bytes.length ++ pstr "tEXt" ++ chunk_data_bytes ++ toBytesBE 4 crc

/-- The watermark chunk list of _embed_png_metadata (lines 113-137): the
base64 text is cut into 2000-character pieces keyed WMHash, WMHash1,
WMHash2, ... -/
def watermarkChunks (wmB64 : PyStr) : List Bytes :=
  (List.range ((wmB64.length + 1999) / 2000)).map fun k =>
    let chunk_data := (wmB64.drop (k * 2000)).take 2000
    let keyword := if k > 0 then pstr "WMHash" ++ natDecimal k else pstr "WMHash"
    mkTextChunk keyword chunk_data

/-- _embed_png_metadata (lines 89-142) on the PNG byte stream (the preceding
PIL re-save is an external dependency; the model receives its output bytes):
all watermark chunks are spliced in at png_bytes.rfind(b"IEND"), the
position of the ASCII type IEND, which lies 4 bytes after the start of the
IEND chunk. -/
def embed_png_metadata (png_bytes : Bytes) (wmB64 : PyStr) : Except WMError Bytes :=
  match rfindPat png_bytes (pstr "IEND") with
  | none => Except.error WMError.invalidPng
  | some iend_pos =>
    Except.ok (png_bytes.take iend_pos ++ (watermarkChunks wmB64).flatten ++
      png_bytes.drop iend_pos)

/-- The chunk-walking loop of _extract_png_metadata (lines 235-277):
collect the (keyword, text) pairs of tEXt chunks whose keyword starts with
WMHash; latin-1 decoding is the identity on byte values. -/
def pngScanLoop (png_bytes : Bytes) : Nat → Nat → List (PyStr × PyStr) → List (PyStr × PyStr)
  | 0, _, acc => acc
  | fuel + 1, pos, acc =>
    if pos < png_bytes.length - 12 then
      if pos + 4 > png_bytes.length then acc
      else
        let chunk_length := fromBytesBE (slice png_bytes pos 4)
        if pos + 8 > png_bytes.length then acc
        else
          let chunk_type := slice png_bytes (pos + 4) 4
          if chunk_type = pstr "tEXt" then
            if pos + 8 + chunk_length > png_bytes.length then acc
            else
              let chunk_data := slice png_bytes (pos + 8) chunk_length
              let acc :=
                match chunk_data.indexOf? 0 with
                | some null_pos =>
                  let keyword := chunk_data.take null_pos
                  let text := chunk_data.drop (null_pos + 1)
                  if (pstr "WMHash").isPrefixOf keyword then acc ++ [(keyword, text)] else acc
                | none => acc
              pngScanLoop png_bytes fuel (pos + 8 + chunk_length + 4) acc
          else
            if chunk_type = pstr "IEND" then acc
            else pngScanLoop png_bytes fuel (pos + 8 + chunk_length + 4) acc
    else acc

/-- The reconstruction tail of _extract_png_metadata (lines 279-289): fail
when no chunk was found, sort by keyword with Python's stable sort,
concatenate the texts and base64-decode, returning the UTF-8 bytes of the
joined text when it is not valid base64. -/
def pngCollect (watermark_chunks : List (PyStr × PyStr)) : Except WMError Bytes :=
  if watermark_chunks.isEmpty then Except.error WMError.noPngMetadataWatermark
  else
    let sorted := watermark_chunks.insertionSort fun a b => lexLe a.1 b.1 = true
    let wmB64 := (sorted.map (·.2)).flatten
    match b64decode wmB64 with
    | some bs => Except.ok bs
    | none => Except.ok (utf8Encode wmB64)

/-- _extract_png_metadata (lines 226-289) on PNG bytes: walk the chunk
stream from offset 8 and reconstruct the watermark. -/
def extract_png_metadata (png_bytes : Bytes) : Except WMError Bytes :=
  pngCollect (pngScanLoop png_bytes (png_bytes.length + 1) 8 [])

/-- Is t a 4-letter ASCII chunk type? -/
def validChunkType (t : Bytes) : Bool :=
  t.length == 4 && t.all fun c => (65 ≤ c && c ≤ 90) || (97 ≤ c && c ≤ 122)

/-- Modelled from the spec (sections 4.E, 6 and 8: the output must be a
valid PNG whose chunk CRCs verify): after the signature the stream
decomposes into chunks, each a 4-byte big-endian length, a 4-letter ASCII
type, the data and a correct CRC-32 over type+data, ending with an empty
IEND chunk and nothing after it. -/
def chunksWellFormed : Nat → Bytes → Bool
  | 0, _ => false
  | fuel + 1, bs =>
    if bs.length < 12 then false
    else
      let len := fromBytesBE (slice bs 0 4)
      let typ := slice bs 4 4
      if !validChunkType typ then false
      else if bs.length < 12 + len then false
      else
        let data := slice bs 8 len
        let crc := fromBytesBE (slice bs (8 + len) 4)
        if crc ≠ crc32 (typ ++ data) then false
        else if typ = pstr "IEND" then len == 0 && bs.length == 12
        else chunksWellFormed fuel (bs.drop (12 + len))

/-- Modelled from the spec: a valid PNG byte stream. -/
def validPngSpec (bs : Bytes) : Bool :=
  bs.take 8 == pngSignature && chunksWellFormed (bs.length + 1) (bs.drop 8)

/-- A raw chunk, used to describe well-formed PNG inputs. -/
structure RawChunk where
  typ : Bytes
  data : Bytes
deriving DecidableEq

/-- Encode a chunk with its correct CRC. -/
def encodeChunk (c : RawChunk) : Bytes :=
  toBytesBE 4 c.data.length ++ c.typ ++ c.data ++ toBytesBE 4 (crc32 (c.typ ++ c.data))

/-- The WMHash (keyword, text) pairs a chunk list holds, in stream order:
what the extraction loop is meant to collect. -/
def wmPairsOf (cs : List RawChunk) : List (PyStr × PyStr) :=
  cs.filterMap fun c =>
    if c.typ = pstr "tEXt" then
      match c.data.indexOf? 0 with
      | some null_pos =>
        let keyword := c.data.take null_pos
        let text := c.data.drop (null_pos + 1)
        if (pstr "WMHash").isPrefixOf keyword then some (keyword, text) else none
      | none => none
    else none

/-- The byte stream of a PNG made of the given chunks followed by IEND. -/
def pngOfChunks (cs : List RawChunk) : Bytes :=
  pngSignature ++ (cs.map encodeChunk).flatten ++ encodeChunk ⟨pstr "IEND", []⟩

/-- IHDR data of a 1 x 1 grayscale PNG. -/
def miniIHDRData : Bytes := [0, 0, 0, 1, 0, 0, 0, 1, 8, 0, 0, 0, 0]

/-- A small stand-in IDAT body (its content is irrelevant to chunk-stream
well-formedness). -/
def miniIDATData : Bytes := [120, 156, 99, 96, 0, 0, 0, 2, 0, 1]

/-- A minimal well-formed PNG stream. -/
def miniPng : Bytes :=
  pngOfChunks [⟨pstr "IHDR", miniIHDRData⟩, ⟨pstr "IDAT", miniIDATData⟩]

/-- The base64 text the service would embed for the sample payload. -/
def sampleWmB64 : PyStr :=
  b64encode (watermark_data_bytes samplePayload)

/-- A well-formed PNG carrying tEXt chunks keyed WMHash2 then WMHash10. -/
def c4Png : Bytes :=
  pngOfChunks [⟨pstr "IHDR", miniIHDRData⟩,
    ⟨pstr "tEXt", pstr "WMHash2" ++ [0] ++ pstr "QUJD"⟩,
    ⟨pstr "tEXt", pstr "WMHash10" ++ [0] ++ pstr "REVG"⟩]

/-- A well-formed PNG carrying the sample payload in a single WMHash chunk,
as a correct embedder would have produced it. -/
def c9Png : Bytes :=
  pngOfChunks [⟨pstr "IHDR", miniIHDRData⟩,
    ⟨pstr "tEXt", pstr "WMHash" ++ [0] ++ sampleWmB64⟩]

/-! ### Seekable byte sources
Source: src/backend/app/core/hashing/content_hash.py and the extract entry
points that read whole files. -/

/-- A caller-provided seekable reader: its bytes and cursor position. -/
structure PyFile where
  data : Bytes
  pos : Nat
deriving DecidableEq

/-- compute_file_hash (content_hash.py lines 6-13): seek(0), hash the
stream in 8 KiB chunks whose concatenation is the whole stream, then
seek(0) again before returning the hexdigest. -/
def compute_file_hash (f : PyFile) : PyStr × PyFile :=
  (bytesToHex (sha256 ((chunksOf 8192 f.data).flatten)), { f with pos := 0 })

/-- The file interaction of _extract_png_metadata (lines 226-229): seek(0)
then read(), leaving the cursor at end of stream, then the pure chunk walk. -/
def extract_png_metadata_file (f : PyFile) : Except WMError Bytes × PyFile :=
  (extract_png_metadata f.data, { f with pos := f.data.length })

/-! ### Image orchestration
Source: src/backend/app/services/watermark_service.py (_extract_image_multiple)
and src/backend/app/services/verification_service.py (verify_watermark). -/

/-- InvisibleWatermarker.supports_format (invisible_watermark.py 126-129). -/
def invisibleSupportsFormat (ext : PyStr) : Bool :=
  [pstr ".jpg", pstr ".jpeg", pstr ".png", pstr ".bmp"].contains (lowerAscii ext)

/-- SteganoWatermarker.supports_format (stegano_fallback.py 63-66). -/
def steganoSupportsFormat (ext : PyStr) : Bool :=
  [pstr ".png"].contains (lowerAscii ext)

/-- MetadataWatermarker.supports_format (metadata_watermark.py 295-298). -/
def metadataSupportsFormat (ext : PyStr) : Bool :=
  [pstr ".jpg", pstr ".jpeg", pstr ".png", pstr ".tiff", pstr ".tif"].contains (lowerAscii ext)

/-- The image codec stack of the service: availability flags for the three
lazily constructed watermarkers and the extraction behaviours of the two
library-backed codecs (invisible-watermark and stegano are external
dependencies, so their extractors are oracles; the metadata extractor is
instantiated with the real model where needed).  toPngBytes stands for the
external PIL PNG re-encode used on non-PNG inputs. -/
structure ImageStack where
  invisibleAvailable : Bool
  steganoAvailable : Bool
  metadataAvailable : Bool
  invisibleExtract : Bytes → Except WMError Bytes
  steganoExtract : Bytes → Except WMError Bytes
  metadataExtract : Bytes → Except WMError Bytes
  toPngBytes : Bytes → Bytes

/-- One probe of _extract_image_multiple: run the codec when available and
applicable, keep a result only when it is non-raising and non-empty (the
source tests watermark_data and len(watermark_data) > 0). -/
def probeResult (available : Bool) (applicable : Bool)
    (extractor : Bytes → Except WMError Bytes) (file : Bytes) : Option Bytes :=
  if available && applicable then
    match extractor file with
    | Except.ok d => if d.length > 0 then some d else none
    | Except.error _ => none
  else none

/-- WatermarkService._extract_image_multiple (lines 345-392): metadata
first, then invisible-watermark, then stegano after an in-memory PNG
conversion for non-PNG inputs; all failing raises. -/
def extract_image_multiple (st : ImageStack) (ext : PyStr) (isPng : Bool)
    (file : Bytes) : Except WMError Bytes :=
  match probeResult st.metadataAvailable (metadataSupportsFormat ext) st.metadataExtract file with
  | some d => Except.ok d
  | none =>
    match probeResult st.invisibleAvailable (invisibleSupportsFormat ext)
        st.invisibleExtract file with
    | some d => Except.ok d
    | none =>
      match probeResult st.steganoAvailable (steganoSupportsFormat (pstr ".png"))
          st.steganoExtract (if isPng then file else st.toPngBytes file) with
      | some d => Except.ok d
      | none => Except.error WMError.imageExtractAllFailed

/-- The extraction phase of VerificationService.verify_watermark for images
(lines 40-74): only the invisible-watermark probe and then the stegano probe
run; the container-metadata extractor is never consulted. -/
def verify_image_probe (st : ImageStack) (ext : PyStr) (isPng : Bool)
    (file : Bytes) : Option Bytes :=
  match probeResult st.invisibleAvailable (invisibleSupportsFormat ext)
      st.invisibleExtract file with
  | some d => some d
  | none =>
    probeResult st.steganoAvailable true st.steganoExtract
      (if isPng then file else st.toPngBytes file)

/-- The structured verification record (mirrors the dict built by
verify_watermark; the source key named like the Lean keyword match is
rendered matched). -/
structure VerifyRecord where
  verified : Bool
  watermark_found : Bool
  watermark_hash : Option PyStr
  matched : Bool
deriving DecidableEq

/-- VerificationService.verify_watermark for images (lines 21-171): probe,
reparse the extracted bytes, recompute the watermark hash and consult the
registry oracle; any failure is caught and reported as a record with
watermark_found false rather than raised. -/
def verify_watermark_image (st : ImageStack) (ext : PyStr) (isPng : Bool)
    (file : Bytes) (registryExists : PyStr → Bool) : VerifyRecord :=
  match verify_image_probe st ext isPng file with
  | none => ⟨false, false, none, false⟩
  | some d =>
    match reparseExtracted d with
    | none => ⟨false, false, none, false⟩
    | some payload =>
      let h := generate_watermark_hash payload
      ⟨true, true, some h, registryExists h⟩

/-- The bytes the broken audio pipeline actually stores for the sample
payload: the 8-byte MD5 personalization prefix, then the payload bytes. -/
def sampleAudioStored : Bytes :=
  (md5 (utf8Encode (generate_watermark_hash samplePayload))).take 8 ++
    watermark_data_bytes samplePayload

/-- A concrete codec stack: metadata extraction is the real PNG model, the
two library-backed extractors find nothing. -/
def demoStack : ImageStack :=
  { invisibleAvailable := true
    steganoAvailable := true
    metadataAvailable := true
    invisibleExtract := fun _ => Except.error WMError.noWatermarkFound
    steganoExtract := fun _ => Except.error WMError.noWatermarkFound
    metadataExtract := extract_png_metadata
    toPngBytes := fun b => b }

end AquaSeal

namespace AquaSeal

/-! ## Claim theorems (first group) -/

set_option maxRecDepth 1000000

/-- C2: the watermark hash is SHA-256 of the UTF-8 encoding of the stable
textual mapping holding exactly user_id, timestamp, metadata_hash and license
with keys in sorted lexicographic order; consequently payload records that
differ only in content_hash share the watermark hash. -/
theorem watermark_hash_canonical_and_content_hash_independent :
    (∀ p : WatermarkPayload,
      generate_watermark_hash p =
        bytesToHex (sha256 (utf8Encode (specCanonicalHashMapping p))))
    ∧ (∀ (p : WatermarkPayload) (c : PyStr),
      generate_watermark_hash { p with content_hash := c } =
        generate_watermark_hash p) := by
  constructor
  · intro p
    rfl
  · intro p c
    rfl

/-- C7 counterexample: at a concrete payload the embedded bytes are not the
lexicographically sorted mapping the claim describes. -/
theorem embedded_bytes_not_lex_sorted :
    watermark_data_bytes samplePayload ≠
      utf8Encode (specLexPayloadMapping samplePayload) := by
  decide

/-- C7 amended: the embedded bytes are the serialization of the full payload
record with keys in the model declaration order user_id, timestamp,
metadata_hash, content_hash, license. -/
theorem embedded_bytes_decl_order (p : WatermarkPayload) :
    watermark_data_bytes p = utf8Encode (specDeclOrderPayloadMapping p) := by
  rfl

/-! ## Helper lemmas -/

theorem length_toBytesBE (n x : Nat) : (toBytesBE n x).length = n := by
  simp [toBytesBE]

theorem length_toBytesLE (n x : Nat) : (toBytesLE n x).length = n := by
  simp [toBytesLE]

theorem length_unpackbits (bs : Bytes) : (unpackbits bs).length = 8 * bs.length := by
  induction bs with
  | nil => rfl
  | cons b t ih =>
    simp only [unpackbits, List.flatMap_cons] at *
    simp [ih, byteBits]
    ring

theorem length_md5 (bs : Bytes) : (md5 bs).length = 16 := by
  unfold md5
  obtain ⟨a, b, c, d⟩ :=
    (chunksOf 64 (md5Pad bs)).foldl md5Compress (1732584193, 4023233417, 2562383102, 271733878)
  simp [length_toBytesLE]

theorem prepare_watermark_ok_bits (ph : Option PyStr) (data : Bytes) :
    prepare_watermark ph data =
      (let d :=
        match ph with
        | some h => if !h.isEmpty then (md5 (utf8Encode h)).take 8 ++ data else data
        | none => data
      if d.length > 65535 then Except.error WMError.dataTooLarge
      else Except.ok (MAGIC_PATTERN ++
        unpackbits (toBytesBE 2 d.length ++ (md5 d).take 4 ++ d))) := by
  cases ph <;> simp [prepare_watermark]

theorem prepEffectiveLen_eq (ph : Option PyStr) (data : Bytes) :
    (match ph with
      | some h => if !h.isEmpty then (md5 (utf8Encode h)).take 8 ++ data else data
      | none => data).length = prepEffectiveLen ph data := by
  cases ph with
  | none => rfl
  | some h =>
    by_cases hh : h.isEmpty <;>
      simp [prepEffectiveLen, hh, List.length_take, length_md5]

deriving instance DecidableEq for Except

/-- C5: the capacity guard of audio DCT embedding raises AudioTooShort
exactly when the frame bit count 16 + 8 * (6 + body length) exceeds
blocks * coefs_per_block with coefs_per_block = min(24, block_size / 2) - 8;
a frame at exact capacity passes the guard (block size 1024, 9216 samples,
capacity 144 = frame bits) and a frame one bit over capacity raises (block
size 34, 238 samples: capacity 63, frame 64 bits). -/
theorem audio_too_short_exactly_at_capacity :
    (∀ (ph : Option PyStr) (bs audioLen : Nat) (data : Bytes),
      audioEmbedFraming ph bs audioLen data = Except.error WMError.audioTooShort ↔
        prepEffectiveLen ph data ≤ 65535 ∧
          (16 + 8 * (6 + prepEffectiveLen ph data) : Int) >
            (dctBlockCount audioLen bs : Int) * (min 24 ((bs : Int) / 2) - 8))
    ∧ (audioEmbedFraming none 1024 9216 (List.replicate 10 0)).isOk = true
    ∧ audioEmbedFraming none 34 238 [] = Except.error WMError.audioTooShort := by
  refine ⟨?_, by decide, by decide⟩
  intro ph bs audioLen data
  obtain ⟨d, hdlen, hprep⟩ : ∃ d : Bytes, d.length = prepEffectiveLen ph data ∧
      prepare_watermark ph data =
        (if d.length > 65535 then Except.error WMError.dataTooLarge
         else Except.ok (MAGIC_PATTERN ++
           unpackbits (toBytesBE 2 d.length ++ (md5 d).take 4 ++ d))) :=
    ⟨_, prepEffectiveLen_eq ph data, prepare_watermark_ok_bits ph data⟩
  unfold audioEmbedFraming
  rw [hprep]
  by_cases h1 : d.length > 65535
  · rw [if_pos h1]
    simp only [Bind.bind, Except.bind]
    constructor
    · intro h; exact absurd h (by simp)
    · intro h; omega
  · rw [if_neg h1]
    simp only [Bind.bind, Except.bind]
    have hlen : (MAGIC_PATTERN ++
        unpackbits (toBytesBE 2 d.length ++ (md5 d).take 4 ++ d)).length =
        16 + 8 * (6 + prepEffectiveLen ph data) := by
      simp [length_unpackbits, length_toBytesBE, List.length_take, length_md5, hdlen,
        MAGIC_PATTERN]
      ring
    unfold embed_in_dct_check
    by_cases h2 : ((MAGIC_PATTERN ++
        unpackbits (toBytesBE 2 d.length ++ (md5 d).take 4 ++ d)).length : Int) >
        (dctBlockCount audioLen bs : Int) * (min 24 ((bs : Int) / 2) - 8)
    · rw [if_pos h2]
      rw [hlen] at h2
      push_cast at h2
      simp only [true_iff, eq_self_iff_true]
      exact ⟨by omega, by exact h2⟩
    · rw [if_neg h2]
      constructor
      · intro h; exact absurd h (by simp)
      · rintro ⟨hle, hgt⟩
        exfalso
        apply h2
        rw [hlen]
        push_cast
        exact hgt

theorem mem_syncCandidates (bits : List Nat) (ms : Nat) (p : Nat × Nat) :
    p ∈ syncCandidates bits ms ↔
      p.1 < min ms (bits.length - 16) ∧ 11 ≤ syncMatches bits p.1 ∧
        p.2 = syncMatches bits p.1 := by
  obtain ⟨a, b⟩ := p
  dsimp only
  unfold syncCandidates
  rw [List.mem_filterMap]
  constructor
  · rintro ⟨k, hk, h⟩
    rw [List.mem_range] at hk
    by_cases hc : 13 * 16 ≤ 20 * syncMatches bits k
    · rw [if_pos hc] at h
      injection h with h
      injection h with h1 h2
      subst h1
      subst h2
      exact ⟨by simpa [MAGIC_PATTERN] using hk, by omega, rfl⟩
    · rw [if_neg hc] at h
      cases h
  · rintro ⟨h1, h2, h3⟩
    subst h3
    refine ⟨a, ?_, ?_⟩
    · rw [List.mem_range]
      simpa [MAGIC_PATTERN] using h1
    · rw [if_pos (by omega)]

/-- C6: the sync finder accepts position i exactly when i lies in the first
min(2000, len - 16) windows and the 16-bit window at i agrees with the magic
pattern 1011001011100101 in at least 11 of 16 bits (the 0.65 ratio
threshold); the returned positions are sorted by descending match count
(equivalently descending match ratio matches/16), and a window with exactly
11 matching bits is accepted while one with 10 is rejected. -/
theorem sync_finder_characterization :
    (∀ (bits : List Nat) (i : Nat),
      i ∈ find_sync_pattern bits ↔
        i < min 2000 (bits.length - 16) ∧ 11 ≤ syncMatches bits i)
    ∧ (∀ bits : List Nat,
      (find_sync_pattern bits).Pairwise fun i j => syncMatches bits j ≤ syncMatches bits i)
    ∧ 0 ∈ find_sync_pattern elevenMatchBits
    ∧ 0 ∉ find_sync_pattern tenMatchBits := by
  refine ⟨?_, ?_, by decide, by decide⟩
  · intro bits i
    unfold find_sync_pattern
    rw [List.mem_map]
    constructor
    · rintro ⟨p, hp, rfl⟩
      have hp' : p ∈ syncCandidates bits 2000 :=
        (List.perm_insertionSort _ _).mem_iff.mp hp
      rw [mem_syncCandidates] at hp'
      exact ⟨hp'.1, hp'.2.1⟩
    · rintro ⟨h1, h2⟩
      refine ⟨(i, syncMatches bits i), ?_, rfl⟩
      apply (List.perm_insertionSort _ _).mem_iff.mpr
      rw [mem_syncCandidates]
      exact ⟨h1, h2, rfl⟩
  · intro bits
    unfold find_sync_pattern
    rw [List.pairwise_map]
    haveI : IsTotal (Nat × Nat) (fun a b => b.2 ≤ a.2) := ⟨fun a b => le_total b.2 a.2⟩
    haveI : IsTrans (Nat × Nat) (fun a b => b.2 ≤ a.2) := ⟨fun _ _ _ h1 h2 => le_trans h2 h1⟩
    have hs := List.sorted_insertionSort (fun a b : Nat × Nat => b.2 ≤ a.2)
      (syncCandidates bits 2000)
    refine hs.imp_of_mem ?_
    intro p q hp hq hpq
    have hp' := (mem_syncCandidates bits 2000 p).mp
      ((List.perm_insertionSort _ _).mem_iff.mp hp)
    have hq' := (mem_syncCandidates bits 2000 q).mp
      ((List.perm_insertionSort _ _).mem_iff.mp hq)
    rw [hp'.2.2, hq'.2.2] at hpq
    exact hpq


theorem unpackbits_append (a b : Bytes) :
    unpackbits (a ++ b) = unpackbits a ++ unpackbits b := by
  simp [unpackbits]

theorem chunksOfAux_fuel (n : Nat) (hn : 0 < n) :
    ∀ (fuel1 fuel2 : Nat) (l : List α), l.length ≤ fuel1 → l.length ≤ fuel2 →
      chunksOfAux n fuel1 l = chunksOfAux n fuel2 l := by
  intro fuel1
  induction fuel1 with
  | zero =>
    intro fuel2 l h1 h2
    have : l = [] := List.eq_nil_of_length_eq_zero (by omega)
    subst this
    cases fuel2 <;> rfl
  | succ f ih =>
    intro fuel2 l h1 h2
    cases l with
    | nil => cases fuel2 <;> rfl
    | cons a t =>
      simp only [List.length_cons] at h1 h2
      cases fuel2 with
      | zero => omega
      | succ f2 =>
        show ((a :: t).take n :: chunksOfAux n f ((a :: t).drop n)) =
          ((a :: t).take n :: chunksOfAux n f2 ((a :: t).drop n))
        congr 1
        apply ih
        · simp only [List.length_drop, List.length_cons]
          omega
        · simp only [List.length_drop, List.length_cons]
          omega

theorem chunksOf_eight_cons (l8 rest : List Nat) (h8 : l8.length = 8) :
    chunksOf 8 (l8 ++ rest) = l8 :: chunksOf 8 rest := by
  obtain ⟨a, l7, rfl⟩ : ∃ a l7, l8 = a :: l7 := by
    cases l8 with
    | nil => simp at h8
    | cons a l7 => exact ⟨a, l7, rfl⟩
  unfold chunksOf
  rw [if_neg (by omega), if_neg (by omega)]
  rw [List.cons_append]
  have hlen : (a :: (l7 ++ rest)).length = (rest.length + 7) + 1 := by
    simp only [List.length_cons, List.length_append]
    simp only [List.length_cons] at h8
    omega
  rw [hlen]
  rw [show chunksOfAux 8 ((rest.length + 7) + 1) (a :: (l7 ++ rest)) =
    (a :: (l7 ++ rest)).take 8 :: chunksOfAux 8 (rest.length + 7) ((a :: (l7 ++ rest)).drop 8)
    from rfl]
  rw [← List.cons_append]
  rw [List.take_left' h8, List.drop_left' h8]
  congr 1
  exact chunksOfAux_fuel 8 (by omega) _ _ rest (by omega) (by omega)

theorem packbits_byteBits_cons (b : Nat) (hb : b < 256) (rest : List Nat) :
    packbits (byteBits b ++ rest) = b :: packbits rest := by
  have h8 : (byteBits b).length = 8 := rfl
  unfold packbits
  rw [chunksOf_eight_cons (byteBits b) rest h8]
  rw [List.map_cons]
  congr 1
  simp [byteBits]
  omega

theorem packbits_unpackbits (bs : Bytes) (h : ∀ b ∈ bs, b < 256) :
    packbits (unpackbits bs) = bs := by
  induction bs with
  | nil => rfl
  | cons b t ih =>
    rw [show unpackbits (b :: t) = byteBits b ++ unpackbits t from rfl]
    rw [packbits_byteBits_cons b (h b (by simp))]
    rw [ih fun x hx => h x (by simp [hx])]

theorem mem_toBytesBE_lt (n x : Nat) : ∀ b ∈ toBytesBE n x, b < 256 := by
  intro b hb
  simp only [toBytesBE, List.mem_map] at hb
  obtain ⟨i, _, rfl⟩ := hb
  exact Nat.mod_lt _ (by omega)

theorem mem_toBytesLE_lt (n x : Nat) : ∀ b ∈ toBytesLE n x, b < 256 := by
  intro b hb
  simp only [toBytesLE, List.mem_map] at hb
  obtain ⟨i, _, rfl⟩ := hb
  exact Nat.mod_lt _ (by omega)

theorem mem_md5_lt (bs : Bytes) : ∀ b ∈ md5 bs, b < 256 := by
  unfold md5
  obtain ⟨a, b, c, d⟩ :=
    (chunksOf 64 (md5Pad bs)).foldl md5Compress (1732584193, 4023233417, 2562383102, 271733878)
  intro x hx
  simp only [List.mem_append] at hx
  rcases hx with ((h | h) | h) | h
  · exact mem_toBytesLE_lt _ _ _ h
  · exact mem_toBytesLE_lt _ _ _ h
  · exact mem_toBytesLE_lt _ _ _ h
  · exact mem_toBytesLE_lt _ _ _ h

theorem fromBytesBE_toBytesBE_two (n : Nat) (h : n < 65536) :
    fromBytesBE (toBytesBE 2 n) = n := by
  show fromBytesBE [n / 256 ^ (2 - 1 - 0) % 256, n / 256 ^ (2 - 1 - 1) % 256] = n
  unfold fromBytesBE
  simp only [List.foldl_cons, List.foldl_nil]
  omega


theorem syncMatches_le_sixteen (bits : List Nat) (i : Nat) : syncMatches bits i ≤ 16 := by
  unfold syncMatches
  calc (((bits.drop i).take 16).zip MAGIC_PATTERN).countP (fun ab => ab.1 == ab.2)
      ≤ (((bits.drop i).take 16).zip MAGIC_PATTERN).length := List.countP_le_length _
    _ ≤ 16 := by
      rw [List.length_zip]
      simp [MAGIC_PATTERN]

theorem try_extract_prepared (d : Bytes) (h0 : 0 < d.length) (hmax : d.length ≤ 65535)
    (hbytes : ∀ b ∈ d, b < 256) :
    try_extract_at_position
      (MAGIC_PATTERN ++ unpackbits (toBytesBE 2 d.length ++ (md5 d).take 4 ++ d)) 16 =
      some d := by
  have hA : (toBytesBE 2 d.length).length = 2 := length_toBytesBE 2 _
  have hB : ((md5 d).take 4).length = 4 := by
    simp [List.length_take, length_md5]
  have hu : unpackbits (toBytesBE 2 d.length ++ (md5 d).take 4 ++ d) =
      unpackbits (toBytesBE 2 d.length) ++ (unpackbits ((md5 d).take 4) ++ unpackbits d) := by
    rw [unpackbits_append, unpackbits_append, List.append_assoc]
  have hALen : (unpackbits (toBytesBE 2 d.length)).length = 16 := by
    rw [length_unpackbits, hA]
  have hBLen : (unpackbits ((md5 d).take 4)).length = 32 := by
    rw [length_unpackbits, hB]
  have hCLen : (unpackbits d).length = 8 * d.length := length_unpackbits d
  have hMagicLen : MAGIC_PATTERN.length = 16 := rfl
  unfold try_extract_at_position
  rw [hu]
  rw [List.drop_left' hMagicLen]
  have hdbLen : (unpackbits (toBytesBE 2 d.length) ++
      (unpackbits ((md5 d).take 4) ++ unpackbits d)).length = 48 + 8 * d.length := by
    simp only [List.length_append, hALen, hBLen, hCLen]
    omega
  rw [if_neg (by omega)]
  rw [List.take_left' hALen]
  rw [packbits_unpackbits _ (mem_toBytesBE_lt 2 d.length)]
  rw [fromBytesBE_toBytesBE_two d.length (by omega)]
  rw [if_neg (by simp only [Bool.or_eq_true, decide_eq_true_eq]; omega)]
  rw [if_neg (by omega)]
  rw [List.drop_left' hALen]
  have hdrop48 : (unpackbits (toBytesBE 2 d.length) ++
      (unpackbits ((md5 d).take 4) ++ unpackbits d)).drop 48 = unpackbits d := by
    rw [show (48 : Nat) = 16 + 32 from rfl, ← List.drop_drop]
    rw [List.drop_left' hALen, List.drop_left' hBLen]
  rw [hdrop48]
  rw [List.take_left' hBLen]
  rw [packbits_unpackbits _ (fun b hb => mem_md5_lt d b (List.mem_of_mem_take hb))]
  have htake : (unpackbits d).take (d.length * 8) = unpackbits d := by
    rw [show d.length * 8 = (unpackbits d).length by rw [hCLen]; ring]
    exact List.take_length _
  rw [htake]
  rw [packbits_unpackbits d hbytes]
  rw [if_pos rfl]

theorem find_sync_cons_of_best (bits : List Nat)
    (hcond : 13 * 16 ≤ 20 * syncMatches bits 0)
    (hbest : ∀ i, syncMatches bits i ≤ syncMatches bits 0)
    (hpos : 0 < min 2000 (bits.length - MAGIC_PATTERN.length)) :
    ∃ l, find_sync_pattern bits = 0 :: l := by
  unfold find_sync_pattern
  obtain ⟨m, hm⟩ : ∃ m, min 2000 (bits.length - MAGIC_PATTERN.length) = m + 1 :=
    ⟨min 2000 (bits.length - MAGIC_PATTERN.length) - 1, by omega⟩
  have hcand : syncCandidates bits 2000 =
      (0, syncMatches bits 0) :: ((List.range m).map Nat.succ).filterMap
        (fun i => if 13 * 16 ≤ 20 * syncMatches bits i then
          some (i, syncMatches bits i) else none) := by
    unfold syncCandidates
    rw [hm, List.range_succ_eq_map, List.filterMap_cons, List.filterMap_map]
    simp only [if_pos hcond]
  rw [hcand]
  rw [show List.insertionSort (fun a b => b.2 ≤ a.2)
      ((0, syncMatches bits 0) :: ((List.range m).map Nat.succ).filterMap
        (fun i => if 13 * 16 ≤ 20 * syncMatches bits i then
          some (i, syncMatches bits i) else none)) =
    List.orderedInsert (fun a b => b.2 ≤ a.2) (0, syncMatches bits 0)
      (List.insertionSort (fun a b => b.2 ≤ a.2)
        (((List.range m).map Nat.succ).filterMap
          (fun i => if 13 * 16 ≤ 20 * syncMatches bits i then
            some (i, syncMatches bits i) else none))) from rfl]
  cases hsort : List.insertionSort (fun a b => b.2 ≤ a.2)
      (((List.range m).map Nat.succ).filterMap
        (fun i => if 13 * 16 ≤ 20 * syncMatches bits i then
          some (i, syncMatches bits i) else none)) with
  | nil =>
    exact ⟨[], rfl⟩
  | cons y t =>
    have hy : y ∈ ((List.range m).map Nat.succ).filterMap
        (fun i => if 13 * 16 ≤ 20 * syncMatches bits i then
          some (i, syncMatches bits i) else none) := by
      have := (List.perm_insertionSort (fun a b : Nat × Nat => b.2 ≤ a.2) _).mem_iff.mp
        (hsort ▸ List.mem_cons_self y t)
      exact this
    have hy2 : y.2 ≤ syncMatches bits 0 := by
      rw [List.mem_filterMap] at hy
      obtain ⟨a, _, ha⟩ := hy
      by_cases hc : 13 * 16 ≤ 20 * syncMatches bits a
      · rw [if_pos hc] at ha
        injection ha with ha
        subst ha
        exact hbest a
      · rw [if_neg hc] at ha
        cases ha
    rw [List.orderedInsert]
    rw [if_pos hy2]
    exact ⟨(y :: t).map (fun p => p.1), by simp⟩


theorem sampleStored_len : sampleAudioStored.length = 242 := by
  have hwd_len : (watermark_data_bytes samplePayload).length = 234 := by decide
  simp only [sampleAudioStored, List.length_append, List.length_take, length_md5, hwd_len]
  omega

theorem sampleStored_bytes_lt : ∀ b ∈ sampleAudioStored, b < 256 := by
  intro b hb
  rcases List.mem_append.mp hb with h | h
  · exact mem_md5_lt _ b (List.mem_of_mem_take h)
  · have hq : ∀ b ∈ watermark_data_bytes samplePayload, b < 256 := by decide
    exact hq b h

theorem sample_frame_bits : serviceAudioFrameBits samplePayload =
    Except.ok (MAGIC_PATTERN ++ unpackbits (toBytesBE 2 sampleAudioStored.length ++
      (md5 sampleAudioStored).take 4 ++ sampleAudioStored)) := by
  rfl

theorem sample_sync_head : syncMatches (MAGIC_PATTERN ++
    unpackbits (toBytesBE 2 sampleAudioStored.length ++
      (md5 sampleAudioStored).take 4 ++ sampleAudioStored)) 0 = 16 := by
  decide

theorem sample_bits_len : (MAGIC_PATTERN ++ unpackbits (toBytesBE 2 sampleAudioStored.length ++
    (md5 sampleAudioStored).take 4 ++ sampleAudioStored)).length = 2000 := by
  simp only [List.length_append, length_unpackbits, length_toBytesBE, List.length_take,
    length_md5, sampleStored_len]
  simp [MAGIC_PATTERN]

theorem audioExtractBits_of_sync_head (bits : List Nat) (d : Bytes) (l : List Nat)
    (hsync : find_sync_pattern bits = 0 :: l)
    (hdec : try_extract_at_position bits (0 + MAGIC_PATTERN.length) = some d) :
    audioExtractBits bits = some d := by
  unfold audioExtractBits
  rw [hsync, List.map_cons, hdec]
  rfl

theorem sample_extract_bits : audioExtractBits (MAGIC_PATTERN ++
    unpackbits (toBytesBE 2 sampleAudioStored.length ++
      (md5 sampleAudioStored).take 4 ++ sampleAudioStored)) = some sampleAudioStored := by
  have htep : try_extract_at_position
      (MAGIC_PATTERN ++ unpackbits (toBytesBE 2 sampleAudioStored.length ++
        (md5 sampleAudioStored).take 4 ++ sampleAudioStored)) 16 = some sampleAudioStored :=
    try_extract_prepared sampleAudioStored (by rw [sampleStored_len]; omega)
      (by rw [sampleStored_len]; omega) sampleStored_bytes_lt
  obtain ⟨l, hsync⟩ := find_sync_cons_of_best _
    (by rw [sample_sync_head]; norm_num)
    (fun i => sample_sync_head ▸ syncMatches_le_sixteen _ i)
    (by rw [sample_bits_len]; simp [MAGIC_PATTERN])
  exact audioExtractBits_of_sync_head _ _ l hsync htep

theorem sample_reparse_fails : reparseExtracted sampleAudioStored = none := by
  decide

theorem sample_reparse_clean :
    reparseExtracted (watermark_data_bytes samplePayload) = some samplePayload := by
  decide

theorem sample_stored_ne : sampleAudioStored ≠ watermark_data_bytes samplePayload := by
  decide

/-- C1: the round-trip invariant fails on the code for non-MP3 audio.  At a
concrete service payload the embed-side framing stores the 8-byte MD5 prefix
of the personalization label in front of the payload bytes, the bit-level
extraction pipeline returns exactly those prefixed bytes (checksum verified),
they differ from the payload bytes, and reparsing them as a payload record
fails, so no watermark hash can be recomputed; the same bytes without the
prefix would reparse to the original payload record. -/
theorem c1_audio_roundtrip_broken :
    ∃ bits,
      serviceAudioFrameBits samplePayload = Except.ok bits
      ∧ audioExtractBits bits = some sampleAudioStored
      ∧ sampleAudioStored ≠ watermark_data_bytes samplePayload
      ∧ reparseExtracted sampleAudioStored = none
      ∧ reparseExtracted (watermark_data_bytes samplePayload) = some samplePayload :=
  ⟨_, sample_frame_bits, sample_extract_bits, sample_stored_ne, sample_reparse_fails,
    sample_reparse_clean⟩


/-- C3: evaluated at a minimal well-formed PNG and the sample payload, the
embedder splices its chunks at rfind(IEND), the offset of the ASCII type
IEND, which is 4 bytes past the start of the 12-byte IEND chunk beginning at
offset 55; the output is not a well-formed chunk stream and the extractor
finds no watermark in it, while splicing the same chunks at the chunk start
(offset 55) would yield a valid PNG containing the watermark. -/
theorem png_embed_inserts_inside_iend :
    validPngSpec miniPng = true
    ∧ rfindPat miniPng (pstr "IEND") = some 59
    ∧ (embed_png_metadata miniPng sampleWmB64).map validPngSpec = Except.ok false
    ∧ (embed_png_metadata miniPng sampleWmB64).map extract_png_metadata =
        Except.ok (Except.error WMError.noPngMetadataWatermark)
    ∧ validPngSpec (miniPng.take 55 ++ (watermarkChunks sampleWmB64).flatten ++
        miniPng.drop 55) = true :=
  ⟨by decide, by decide, by decide, by decide, by decide⟩

/-- C4 counterexample: a well-formed PNG with tEXt chunks keyed WMHash2 and
WMHash10 (stream order WMHash2 first) decodes to DEFABC rather than the
ABCDEF that ordering by numeric suffix (2 before 10) would yield, because
the code sorts keywords lexicographically and WMHash10 < WMHash2. -/
theorem png_extract_order_counterexample :
    extract_png_metadata c4Png = Except.ok (pstr "DEFABC")
    ∧ b64decode (pstr "QUJD" ++ pstr "REVG") = some (pstr "ABCDEF")
    ∧ (pstr "DEFABC" : Bytes) ≠ pstr "ABCDEF" :=
  ⟨by decide, by decide, by decide⟩

/-- C8 counterexample: PNG container-metadata extraction on a 3-byte source
leaves the cursor at offset 3, not 0. -/
theorem cursor_counterexample :
    (extract_png_metadata_file ⟨[1, 2, 3], 0⟩).2.pos ≠ 0 := by
  decide

/-- C8 amended: compute_file_hash does leave every source at offset 0 (it
seeks back explicitly), but the PNG metadata extraction entry point leaves
the cursor at end of stream after its seek(0)-then-read(). -/
theorem cursor_amended :
    (∀ f : PyFile, (compute_file_hash f).2.pos = 0)
    ∧ (∀ f : PyFile, (extract_png_metadata_file f).2.pos = f.data.length) :=
  ⟨fun _ => rfl, fun _ => rfl⟩

/-- C9: the image verification probe runs only the invisible-watermark and
stegano extractors, never the container-metadata extractor; so when the
container metadata holds the only recoverable watermark, verify reports
watermark_found = false while the extract operation (which probes metadata
first) returns the payload for the same bytes. -/
theorem verify_misses_metadata_watermark (st : ImageStack) (ext : PyStr) (file d : Bytes)
    (reg : PyStr → Bool)
    (hmeta : st.metadataAvailable = true)
    (hmsupp : metadataSupportsFormat ext = true)
    (hmres : st.metadataExtract file = Except.ok d)
    (hd : 0 < d.length)
    (hinv : ∃ e, st.invisibleExtract file = Except.error e)
    (hsteg : ∃ e, st.steganoExtract file = Except.error e) :
    (verify_watermark_image st ext true file reg).watermark_found = false
    ∧ extract_image_multiple st ext true file = Except.ok d := by
  obtain ⟨e1, h1⟩ := hinv
  obtain ⟨e2, h2⟩ := hsteg
  constructor
  · unfold verify_watermark_image verify_image_probe probeResult
    simp only [h1, h2]
    cases hb1 : st.invisibleAvailable && invisibleSupportsFormat ext <;>
      cases hb2 : st.steganoAvailable <;> simp [h2]
  · unfold extract_image_multiple probeResult
    rw [hmeta, hmsupp]
    simp only [Bool.and_self, if_pos]
    rw [hmres]
    simp [hd]

/-- C10: audio DCT extraction never consults the personalization hash the
watermarker instance was built with, so instances differing only in that
hash extract identically; consequently, once extraction with the default
parameters fails with some error, the orchestrator run with any caller
personalization hash yields no payload either. -/
theorem audio_extract_personalization_noninterference :
    (∀ (a : ℚ) (bs : Nat) (h1 h2 : Option PyStr) (audio : List ℚ)
        (dctO : Nat → List ℚ → List (List ℚ)),
      AudioWatermarker.extract ⟨a, bs, h1⟩ audio dctO =
        AudioWatermarker.extract ⟨a, bs, h2⟩ audio dctO)
    ∧ (∀ (ph : Option PyStr) (ext : PyStr) (audio : List ℚ)
        (dctO : Nat → List ℚ → List (List ℚ)) (e : WMError),
      AudioWatermarker.extract ⟨1 / 20, 1024, none⟩ audio dctO = Except.error e →
      resultYieldsPayload (extract_watermark_audio true ph ext audio dctO) = false) := by
  constructor
  · intro a bs h1 h2 audio dctO
    rfl
  · intro ph ext audio dctO e hfail
    have hinit : ∀ hh : Option PyStr, AudioWatermarker.init (1 / 20) 1024 hh =
        Except.ok ⟨1 / 20, 1024, hh⟩ := by
      intro hh
      unfold AudioWatermarker.init
      rw [if_pos (by norm_num)]
    have hext : ∀ hh : Option PyStr, AudioWatermarker.extract ⟨1 / 20, 1024, hh⟩ audio dctO =
        Except.error e := fun hh => hfail ▸ rfl
    unfold extract_watermark_audio audioAttempt service_audio_watermarker
    cases hs : audioSupportsFormat ext <;> cases hph : truthyHash ph <;>
      simp only [hinit, hext, hs, hph, eq_self_iff_true, if_true, Bool.false_eq_true,
        if_false, resultYieldsPayload]

/-- C9 witness: on a well-formed PNG carrying the sample payload only in a
WMHash tEXt chunk, verify misses it and extract returns it. -/
theorem verify_misses_metadata_witness :
    (verify_watermark_image demoStack (pstr ".png") true c9Png
      (fun _ => false)).watermark_found = false
    ∧ extract_image_multiple demoStack (pstr ".png") true c9Png =
        Except.ok (watermark_data_bytes samplePayload) :=
  verify_misses_metadata_watermark demoStack (pstr ".png") c9Png
    (watermark_data_bytes samplePayload) (fun _ => false) rfl (by decide) (by decide)
    (by decide) ⟨WMError.noWatermarkFound, rfl⟩ ⟨WMError.noWatermarkFound, rfl⟩

/-- On the empty signal with a trivial DCT oracle no bits come back, so
every parameter combination fails and extract raises not-found. -/
theorem extract_empty_fails :
    AudioWatermarker.extract ⟨1 / 20, 1024, none⟩ [] (fun _ _ => []) =
      Except.error WMError.noWatermarkFound := by
  unfold AudioWatermarker.extract
  simp [extract_from_dct, firstSome]

/-- C10 witness: on an empty signal with a trivial DCT oracle the default
extraction fails, and the orchestrator with a caller hash yields no payload. -/
theorem audio_noninterference_witness :
    resultYieldsPayload (extract_watermark_audio true (some (pstr "abc")) (pstr ".wav") []
      (fun _ _ => [])) = false :=
  audio_extract_personalization_noninterference.2 (some (pstr "abc")) (pstr ".wav") []
    (fun _ _ => []) WMError.noWatermarkFound extract_empty_fails

theorem fromBytesBE_toBytesBE_four (n : Nat) (h : n < 4294967296) :
    fromBytesBE (toBytesBE 4 n) = n := by
  show fromBytesBE [n / 256 ^ (4 - 1 - 0) % 256, n / 256 ^ (4 - 1 - 1) % 256,
    n / 256 ^ (4 - 1 - 2) % 256, n / 256 ^ (4 - 1 - 3) % 256] = n
  unfold fromBytesBE
  simp only [List.foldl_cons, List.foldl_nil]
  omega

theorem encodeChunk_len (c : RawChunk) (h4 : c.typ.length = 4) :
    (encodeChunk c).length = 12 + c.data.length := by
  simp [encodeChunk, List.length_append, length_toBytesBE, h4]
  omega

theorem filterMap_cons_append (f : α → Option β) (a : α) (l : List α) :
    List.filterMap f (a :: l) = List.filterMap f [a] ++ List.filterMap f l := by
  cases h : f a <;> simp [List.filterMap_cons, h]

theorem wmPairsOf_cons (c : RawChunk) (rest : List RawChunk) :
    wmPairsOf (c :: rest) = wmPairsOf [c] ++ wmPairsOf rest := by
  simp only [wmPairsOf]
  exact filterMap_cons_append _ c rest

theorem pngScanLoop_iend (pre : Bytes) (f : Nat) (acc : List (PyStr × PyStr)) :
    pngScanLoop (pre ++ encodeChunk ⟨pstr "IEND", []⟩) (f + 1) pre.length acc = acc := by
  have hlen : (pre ++ encodeChunk ⟨pstr "IEND", []⟩).length = pre.length + 12 := by
    rw [List.length_append, encodeChunk_len _ (by decide)]
    rfl
  simp only [pngScanLoop]
  rw [hlen, if_neg (by omega)]

theorem pngScanLoop_step (pre rest typ data : Bytes) (f : Nat) (acc : List (PyStr × PyStr))
    (h4 : typ.length = 4) (hd : data.length < 4294967296) (hne : typ ≠ pstr "IEND")
    (hr : 12 ≤ rest.length) :
    pngScanLoop (pre ++ (encodeChunk ⟨typ, data⟩ ++ rest)) (f + 1) pre.length acc =
      pngScanLoop (pre ++ (encodeChunk ⟨typ, data⟩ ++ rest)) f
        (pre.length + (12 + data.length)) (acc ++ wmPairsOf [⟨typ, data⟩]) := by
  have hlen : (pre ++ (encodeChunk ⟨typ, data⟩ ++ rest)).length =
      pre.length + (12 + data.length) + rest.length := by
    simp only [List.length_append, encodeChunk_len ⟨typ, data⟩ h4]
    omega
  have hs0 : slice (pre ++ (encodeChunk ⟨typ, data⟩ ++ rest)) pre.length 4 =
      toBytesBE 4 data.length := by
    unfold slice
    rw [List.drop_left]
    rw [show encodeChunk ⟨typ, data⟩ ++ rest = toBytesBE 4 data.length ++ (typ ++ (data ++
      (toBytesBE 4 (crc32 (typ ++ data)) ++ rest))) from by simp [encodeChunk, List.append_assoc]]
    exact List.take_left' (length_toBytesBE 4 _)
  have hs1 : slice (pre ++ (encodeChunk ⟨typ, data⟩ ++ rest)) (pre.length + 4) 4 = typ := by
    unfold slice
    rw [show pre ++ (encodeChunk ⟨typ, data⟩ ++ rest) = (pre ++ toBytesBE 4 data.length) ++
      (typ ++ (data ++ (toBytesBE 4 (crc32 (typ ++ data)) ++ rest))) from by
        simp [encodeChunk, List.append_assoc]]
    rw [List.drop_left' (by rw [List.length_append, length_toBytesBE])]
    exact List.take_left' h4
  have hs2 : slice (pre ++ (encodeChunk ⟨typ, data⟩ ++ rest)) (pre.length + 8) data.length =
      data := by
    unfold slice
    rw [show pre ++ (encodeChunk ⟨typ, data⟩ ++ rest) = (pre ++ (toBytesBE 4 data.length ++ typ))
      ++ (data ++ (toBytesBE 4 (crc32 (typ ++ data)) ++ rest)) from by
        simp [encodeChunk, List.append_assoc]]
    rw [List.drop_left' (by simp only [List.length_append, length_toBytesBE, h4])]
    exact List.take_left' rfl
  have hpos : pre.length + 8 + data.length + 4 = pre.length + (12 + data.length) := by omega
  simp only [pngScanLoop]
  rw [hs0, fromBytesBE_toBytesBE_four data.length hd, hs1, hs2, hlen]
  rw [if_pos (show pre.length < pre.length + (12 + data.length) + rest.length - 12 by omega)]
  rw [if_neg (show ¬ pre.length + 4 > pre.length + (12 + data.length) + rest.length by omega)]
  rw [if_neg (show ¬ pre.length + 8 > pre.length + (12 + data.length) + rest.length by omega)]
  by_cases ht : typ = pstr "tEXt"
  · rw [if_pos ht]
    rw [if_neg (show ¬ pre.length + 8 + data.length >
      pre.length + (12 + data.length) + rest.length by omega)]
    rw [hpos]
    congr 1
    simp only [wmPairsOf, List.filterMap_cons, List.filterMap_nil, ht, eq_self_iff_true,
      if_true]
    cases hidx : data.indexOf? 0 with
    | none => simp
    | some np =>
      by_cases hwp : pstr "WMHash" <+: List.take np data <;> simp [hwp]
  · rw [if_neg ht, if_neg hne, hpos]
    congr 1
    simp [wmPairsOf, List.filterMap_cons, ht]

theorem flattenEncode_len_ge (cs : List RawChunk) (h4 : ∀ c ∈ cs, c.typ.length = 4) :
    cs.length ≤ ((cs.map encodeChunk).flatten).length := by
  induction cs with
  | nil => simp
  | cons c rest ih =>
    simp only [List.map_cons, List.flatten_cons, List.length_append, List.length_cons]
    have h1 := encodeChunk_len c (h4 c (by simp))
    have h2 := ih fun x hx => h4 x (by simp [hx])
    omega

theorem pngScanLoop_encoded (cs : List RawChunk) :
    ∀ (pre : Bytes) (acc : List (PyStr × PyStr)) (fuel : Nat),
    (∀ c ∈ cs, c.typ.length = 4) →
    (∀ c ∈ cs, c.data.length < 4294967296) →
    (∀ c ∈ cs, c.typ ≠ pstr "IEND") →
    cs.length < fuel →
    pngScanLoop (pre ++ ((cs.map encodeChunk).flatten ++ encodeChunk ⟨pstr "IEND", []⟩))
      fuel pre.length acc = acc ++ wmPairsOf cs := by
  induction cs with
  | nil =>
    intro pre acc fuel _ _ _ hf
    cases fuel with
    | zero => exact absurd hf (Nat.not_lt_zero _)
    | succ f =>
      simp only [List.map_nil, List.flatten_nil, List.nil_append, wmPairsOf,
        List.filterMap_nil, List.append_nil]
      exact pngScanLoop_iend pre f acc
  | cons c rest ih =>
    intro pre acc fuel h4 hd hne hf
    cases fuel with
    | zero => exact absurd hf (Nat.not_lt_zero _)
    | succ f =>
      have hc4 : c.typ.length = 4 := h4 c (by simp)
      have hcd : c.data.length < 4294967296 := hd c (by simp)
      have hcne : c.typ ≠ pstr "IEND" := hne c (by simp)
      have hr : 12 ≤ ((rest.map encodeChunk).flatten ++ encodeChunk ⟨pstr "IEND", []⟩).length := by
        rw [List.length_append, encodeChunk_len ⟨pstr "IEND", []⟩ (by decide)]
        omega
      rw [show ((c :: rest).map encodeChunk).flatten ++ encodeChunk ⟨pstr "IEND", []⟩ =
        encodeChunk c ++ ((rest.map encodeChunk).flatten ++ encodeChunk ⟨pstr "IEND", []⟩) from by
          simp [List.append_assoc]]
      obtain ⟨ctyp, cdata⟩ := c
      rw [pngScanLoop_step pre _ ctyp cdata f acc hc4 hcd hcne hr]
      have hpe : (pre ++ encodeChunk ⟨ctyp, cdata⟩).length =
          pre.length + (12 + cdata.length) := by
        rw [List.length_append, encodeChunk_len ⟨ctyp, cdata⟩ hc4]
      rw [← hpe]
      rw [show pre ++ (encodeChunk ⟨ctyp, cdata⟩ ++ ((rest.map encodeChunk).flatten ++
        encodeChunk ⟨pstr "IEND", []⟩)) = (pre ++ encodeChunk ⟨ctyp, cdata⟩) ++
        ((rest.map encodeChunk).flatten ++ encodeChunk ⟨pstr "IEND", []⟩) from by
          simp [List.append_assoc]]
      rw [ih (pre ++ encodeChunk ⟨ctyp, cdata⟩) (acc ++ wmPairsOf [⟨ctyp, cdata⟩]) f
        (fun x hx => h4 x (by simp [hx])) (fun x hx => hd x (by simp [hx]))
        (fun x hx => hne x (by simp [hx])) (by simp only [List.length_cons] at hf; omega)]
      rw [List.append_assoc, ← wmPairsOf_cons]

/-- C4: for every well-formed chunk list (4-letter types, chunk data under
2^32 bytes, no interior IEND), container-metadata extraction walks the
stream, collects the WMHash tEXt (keyword, text) pairs in stream order and
hands them to the reconstruction tail, which sorts the keywords
lexicographically (not by numeric suffix), concatenates the texts in that
order and base64-decodes the concatenation. -/
theorem png_extract_lexicographic (cs : List RawChunk)
    (h4 : ∀ c ∈ cs, c.typ.length = 4)
    (hd : ∀ c ∈ cs, c.data.length < 4294967296)
    (hne : ∀ c ∈ cs, c.typ ≠ pstr "IEND") :
    extract_png_metadata (pngOfChunks cs) = pngCollect (wmPairsOf cs) := by
  unfold extract_png_metadata pngOfChunks
  congr 1
  have hassoc : pngSignature ++ (cs.map encodeChunk).flatten ++ encodeChunk ⟨pstr "IEND", []⟩ =
      pngSignature ++ ((cs.map encodeChunk).flatten ++ encodeChunk ⟨pstr "IEND", []⟩) := by
    simp [List.append_assoc]
  rw [hassoc]
  have hfuel : cs.length < (pngSignature ++ ((cs.map encodeChunk).flatten ++
      encodeChunk ⟨pstr "IEND", []⟩)).length + 1 := by
    have := flattenEncode_len_ge cs h4
    simp only [List.length_append]
    omega
  rw [show (8 : Nat) = pngSignature.length from rfl]
  rw [pngScanLoop_encoded cs pngSignature [] _ h4 hd hne hfuel]
  simp

/-- C4 witness: the characterization evaluated at the WMHash2/WMHash10
chunk list. -/
theorem png_extract_lexicographic_witness :
    extract_png_metadata (pngOfChunks [⟨pstr "IHDR", miniIHDRData⟩,
      ⟨pstr "tEXt", pstr "WMHash2" ++ [0] ++ pstr "QUJD"⟩,
      ⟨pstr "tEXt", pstr "WMHash10" ++ [0] ++ pstr "REVG"⟩]) =
    pngCollect (wmPairsOf [⟨pstr "IHDR", miniIHDRData⟩,
      ⟨pstr "tEXt", pstr "WMHash2" ++ [0] ++ pstr "QUJD"⟩,
      ⟨pstr "tEXt", pstr "WMHash10" ++ [0] ++ pstr "REVG"⟩]) :=
  png_extract_lexicographic _ (by decide) (by decide) (by decide)

end AquaSeal
